import Mathlib

/-!
Verification of the `rename_n_sort` LLM orchestration layer
(`llm_utils.py`, `llm_parsers.py`, `llm_prompts.py`, `llm_engine.py`,
and the legacy `llm.py` category normalizer) as a shallow embedding.

Python strings are modelled as `List Char` / `String`; Python exceptions
are modelled as explicit error values threaded through `Except`.  Where a
Python builtin is Unicode-aware (e.g. `str.isspace`, `\b` in regexes) the
model restricts attention to the character classes the program actually
feeds it, as noted at each definition.
-/

deriving instance DecidableEq for Except

namespace RenameNSort

/-! ## Python string primitives -/

/-- `str.isspace` membership test for a single character (the ASCII and
Latin-1 whitespace characters; the program only produces these). -/
def pyIsSpace (c : Char) : Bool :=
  c = ' ' || c = '\t' || c = '\n' || c = '\r' ||
  c = Char.ofNat 11 || c = Char.ofNat 12 ||
  c = Char.ofNat 28 || c = Char.ofNat 29 || c = Char.ofNat 30 ||
  c = Char.ofNat 31 || c = Char.ofNat 133 || c = Char.ofNat 160

/-- `s.strip(chars)`: drop characters of `cs` from both ends. -/
def pyStripChars (cs : List Char) (s : List Char) : List Char :=
  ((s.dropWhile (· ∈ cs)).reverse.dropWhile (· ∈ cs)).reverse

/-- `s.strip()` with no argument: drop whitespace from both ends. -/
def pyStripWs (s : List Char) : List Char :=
  ((s.dropWhile pyIsSpace).reverse.dropWhile pyIsSpace).reverse

/-- Substring test `needle in haystack` (Python `in` on strings). -/
def listIsSubstring (needle haystack : List Char) : Bool :=
  match haystack with
  | [] => decide (needle = [])
  | _ :: rest => needle.isPrefixOf haystack || listIsSubstring needle rest

/-- Adjacent-pair containment: `(c ++ c) in s` for a single character `c`,
i.e. the substring test used by `while "--" in cleaned`. -/
def containsPair (c : Char) : List Char → Bool
  | a :: b :: rest => (decide (a = c) && decide (b = c)) || containsPair c (b :: rest)
  | _ => false

/-- One pass of `s.replace(cc, c)` for the two-character pattern `cc`:
replace non-overlapping occurrences left to right. -/
def replacePair (c : Char) : List Char → List Char
  | [] => []
  | [a] => [a]
  | a :: b :: rest =>
    if a = c ∧ b = c then c :: replacePair c rest
    else a :: replacePair c (b :: rest)

/-- The `while pattern in s: s = s.replace(pattern, half)` loop.  The loop
shortens the string on every iteration, so `s.length` steps of fuel always
reach the fixpoint (proved below). -/
def collapsePair (c : Char) : Nat → List Char → List Char
  | 0, s => s
  | fuel + 1, s =>
    if containsPair c s then collapsePair c fuel (replacePair c s) else s

/-! ## `sanitize_filename` (`llm_utils.py`) -/

/-- `MAX_FILENAME_CHARS` from `llm_utils.py`. -/
def MAX_FILENAME_CHARS : Nat := 100

/-- The allow-list string in `sanitize_filename`. -/
def allowedFilenameChars : List Char :=
  "ABCDEFGHIJKLMNOPQRSTUVWXYZabcdefghijklmnopqrstuvwxyz0123456789.-_".data

/-- The per-character step of `sanitize_filename`'s first loop. -/
def sanitizeChar (ch : Char) : Char :=
  if pyIsSpace ch then '-'
  else if ch ∈ allowedFilenameChars then ch
  else '-'

/-- `sanitize_filename` stage: the character-mapping loop producing `cleaned`. -/
def sanitizeCleaned0 (name : List Char) : List Char :=
  name.map sanitizeChar

/-- Stage after `while "--" in cleaned: cleaned = cleaned.replace("--", "-")`. -/
def sanitizeCleaned1 (name : List Char) : List Char :=
  collapsePair '-' (sanitizeCleaned0 name).length (sanitizeCleaned0 name)

/-- Stage after `while "__" in cleaned: cleaned = cleaned.replace("__", "_")`. -/
def sanitizeCleaned2 (name : List Char) : List Char :=
  collapsePair '_' (sanitizeCleaned1 name).length (sanitizeCleaned1 name)

/-- Stage after `cleaned = cleaned.strip("-_.")`. -/
def sanitizeCleaned3 (name : List Char) : List Char :=
  pyStripChars ['-', '_', '.'] (sanitizeCleaned2 name)

/-- Stage after the hard length cap `cleaned = cleaned[:MAX_FILENAME_CHARS]`. -/
def sanitizeCleaned4 (name : List Char) : List Char :=
  if MAX_FILENAME_CHARS < (sanitizeCleaned3 name).length then
    (sanitizeCleaned3 name).take MAX_FILENAME_CHARS
  else sanitizeCleaned3 name

/-- `sanitize_filename` from `llm_utils.py`, on character lists:
`return cleaned or "file"`. -/
def sanitizeFilenameL (name : List Char) : List Char :=
  if sanitizeCleaned4 name = [] then "file".data else sanitizeCleaned4 name

/-- `sanitize_filename` on `String`. -/
def sanitize_filename (s : String) : String :=
  ⟨sanitizeFilenameL s.data⟩

/-! ### Lemmas about the collapse loop -/

/-- Head test used to analyse `containsPair` one constructor at a time. -/
def headIs (c : Char) : List Char → Bool
  | [] => false
  | a :: _ => decide (a = c)

theorem containsPair_cons (c x : Char) (t : List Char) :
    containsPair c (x :: t) = ((decide (x = c) && headIs c t) || containsPair c t) := by
  cases t <;> simp [containsPair, headIs]

theorem replacePair_cons_cons (c a b : Char) (rest : List Char) :
    replacePair c (a :: b :: rest) =
      if a = c ∧ b = c then c :: replacePair c rest
      else a :: replacePair c (b :: rest) := rfl

theorem replacePair_length_le (c : Char) : ∀ s : List Char,
    (replacePair c s).length ≤ s.length
  | [] => by simp [replacePair]
  | [a] => by simp [replacePair]
  | a :: b :: rest => by
    rw [replacePair_cons_cons]
    by_cases h : a = c ∧ b = c
    · rw [if_pos h]
      have := replacePair_length_le c rest
      simp only [List.length_cons]
      omega
    · rw [if_neg h]
      have := replacePair_length_le c (b :: rest)
      simp only [List.length_cons] at this ⊢
      omega

theorem replacePair_length_lt (c : Char) : ∀ s : List Char,
    containsPair c s = true → (replacePair c s).length < s.length
  | [], h => by simp [containsPair] at h
  | [a], h => by simp [containsPair] at h
  | a :: b :: rest, h => by
    rw [replacePair_cons_cons]
    by_cases hab : a = c ∧ b = c
    · rw [if_pos hab]
      have := replacePair_length_le c rest
      simp only [List.length_cons]
      omega
    · rw [if_neg hab]
      have htail : containsPair c (b :: rest) = true := by
        rcases Bool.or_eq_true_iff.mp ((containsPair_cons c a (b :: rest)) ▸ h)
          with hh | hh
        · exact absurd ⟨by simpa using (Bool.and_eq_true _ _ |>.mp hh).1,
            by simpa [headIs] using (Bool.and_eq_true _ _ |>.mp hh).2⟩ hab
        · exact hh
      have := replacePair_length_lt c (b :: rest) htail
      simp only [List.length_cons] at this ⊢
      omega

theorem collapsePair_not_contains (c : Char) :
    ∀ fuel s, s.length ≤ fuel → containsPair c (collapsePair c fuel s) = false := by
  intro fuel
  induction fuel with
  | zero =>
    intro s hs
    have : s = [] := List.length_eq_zero.mp (Nat.le_zero.mp hs)
    subst this
    simp [collapsePair, containsPair]
  | succ n ih =>
    intro s hs
    by_cases h : containsPair c s = true
    · have hlt := replacePair_length_lt c s h
      simp only [collapsePair, h, if_pos]
      exact ih _ (by omega)
    · have hf : containsPair c s = false := by simpa using h
      simp [collapsePair, hf]

theorem collapsePair_of_not_contains (c : Char) (fuel : Nat) (s : List Char)
    (h : containsPair c s = false) : collapsePair c fuel s = s := by
  cases fuel <;> simp [collapsePair, h]

theorem mem_replacePair (c a : Char) : ∀ s : List Char,
    a ∈ replacePair c s → a ∈ s
  | [], h => by simp [replacePair] at h
  | [x], h => by simpa [replacePair] using h
  | x :: y :: rest, h => by
    rw [replacePair_cons_cons] at h
    by_cases hxy : x = c ∧ y = c
    · rw [if_pos hxy] at h
      rcases List.mem_cons.mp h with h | h
      · simp [h, hxy.1]
      · exact List.mem_cons_of_mem _ (List.mem_cons_of_mem _ (mem_replacePair c a rest h))
    · rw [if_neg hxy] at h
      rcases List.mem_cons.mp h with h | h
      · simp [h]
      · exact List.mem_cons_of_mem _ (mem_replacePair c a (y :: rest) h)

theorem mem_collapsePair (c a : Char) :
    ∀ fuel s, a ∈ collapsePair c fuel s → a ∈ s := by
  intro fuel
  induction fuel with
  | zero => intro s h; simpa [collapsePair] using h
  | succ n ih =>
    intro s h
    by_cases hc : containsPair c s = true
    · simp only [collapsePair, hc, if_pos] at h
      exact mem_replacePair c a s (ih _ h)
    · simpa [collapsePair, hc] using h

theorem replacePair_head? (c : Char) : ∀ s : List Char,
    (replacePair c s).head? = s.head?
  | [] => rfl
  | [a] => rfl
  | a :: b :: rest => by
    rw [replacePair_cons_cons]
    by_cases hxy : a = c ∧ b = c
    · rw [if_pos hxy]
      simp [hxy.1]
    · rw [if_neg hxy]
      simp

theorem headIs_eq_of_head? (c : Char) {s t : List Char} (h : s.head? = t.head?) :
    headIs c s = headIs c t := by
  cases s <;> cases t <;> simp_all [headIs]

/-- Replacing doubled `c`s cannot create a doubled `d` for a different
character `d`: the only insertions are `c`s. -/
theorem replacePair_preserves_not_pair (c d : Char) (hdc : d ≠ c) :
    ∀ n s, s.length ≤ n → containsPair d s = false →
      containsPair d (replacePair c s) = false := by
  intro n
  induction n with
  | zero =>
    intro s hs _
    have : s = [] := List.length_eq_zero.mp (Nat.le_zero.mp hs)
    subst this
    simp [replacePair, containsPair]
  | succ n ih =>
    intro s hs h
    match s with
    | [] => simp [replacePair, containsPair]
    | [a] => simp [replacePair, containsPair]
    | a :: b :: rest =>
      rw [containsPair_cons] at h
      have h1 : (decide (a = d) && headIs d (b :: rest)) = false :=
        (Bool.or_eq_false_iff.mp h).1
      have h2 : containsPair d (b :: rest) = false :=
        (Bool.or_eq_false_iff.mp h).2
      rw [replacePair_cons_cons]
      by_cases hxy : a = c ∧ b = c
      · have hrest : containsPair d rest = false := by
          rw [containsPair_cons] at h2
          exact (Bool.or_eq_false_iff.mp h2).2
        have hlen : rest.length ≤ n := by
          simp only [List.length_cons] at hs
          omega
        have hout := ih rest hlen hrest
        rw [if_pos hxy, containsPair_cons]
        have hcd : (decide (c = d)) = false := by
          simp [Ne.symm hdc]
        simp [hcd, hout]
      · have hlen : (b :: rest).length ≤ n := by
          simp only [List.length_cons] at hs ⊢
          omega
        have hout := ih (b :: rest) hlen h2
        rw [if_neg hxy, containsPair_cons]
        have hhead : headIs d (replacePair c (b :: rest)) = headIs d (b :: rest) :=
          headIs_eq_of_head? d (replacePair_head? c (b :: rest))
        rw [hhead]
        simp [h1, hout]

theorem collapsePair_preserves_not_pair (c d : Char) (hdc : d ≠ c) :
    ∀ fuel s, containsPair d s = false →
      containsPair d (collapsePair c fuel s) = false := by
  intro fuel
  induction fuel with
  | zero => intro s h; simpa [collapsePair] using h
  | succ n ih =>
    intro s h
    by_cases hc : containsPair c s = true
    · simp only [collapsePair, hc, if_pos]
      exact ih _ (replacePair_preserves_not_pair c d hdc s.length s le_rfl h)
    · have hf : containsPair c s = false := by simpa using hc
      simpa [collapsePair, hf] using h

/-! ### `containsPair` as infix containment, and closure properties -/

theorem singleton_prefix_iff (c : Char) (t : List Char) :
    [c] <+: t ↔ headIs c t = true := by
  cases t with
  | nil => simp [headIs]
  | cons b t' =>
    constructor
    · intro h
      rcases h with ⟨u, hu⟩
      simp only [List.singleton_append] at hu
      cases hu
      simp [headIs]
    · intro h
      have : b = c := by simpa [headIs] using h
      subst this
      exact ⟨t', by simp⟩

theorem containsPair_iff_infixPair (c : Char) : ∀ s : List Char,
    containsPair c s = true ↔ [c, c] <:+: s
  | [] => by
    simp [containsPair]
  | [a] => by
    constructor
    · intro h; simp [containsPair] at h
    · intro h
      have := h.sublist.length_le
      simp at this
  | a :: b :: rest => by
    rw [containsPair_cons]
    constructor
    · intro h
      rcases Bool.or_eq_true_iff.mp h with h | h
      · rcases Bool.and_eq_true _ _ |>.mp h with ⟨h1, h2⟩
        have ha : a = c := by simpa using h1
        have hb : b = c := by simpa [headIs] using h2
        subst ha; subst hb
        exact ⟨[], rest, by simp⟩
      · have := (containsPair_iff_infixPair c (b :: rest)).mp h
        exact this.trans (List.infix_cons_iff.mpr (Or.inr List.infix_rfl) : (b :: rest) <:+: a :: b :: rest)
    · intro h
      rcases List.infix_cons_iff.mp h with h | h
      · rcases List.cons_prefix_cons.mp h with ⟨ha, htail⟩
        have hb : headIs c (b :: rest) = true :=
          (singleton_prefix_iff c (b :: rest)).mp htail
        subst ha
        simp [hb]
      · have := (containsPair_iff_infixPair c (b :: rest)).mpr h
        simp [this]

theorem not_containsPair_mono {c : Char} {s t : List Char}
    (hsub : t <:+: s) (h : containsPair c s = false) :
    containsPair c t = false := by
  by_contra hne
  have ht : containsPair c t = true := by
    cases hcp : containsPair c t
    · exact absurd hcp hne
    · rfl
  have : containsPair c s = true :=
    (containsPair_iff_infixPair c s).mpr (((containsPair_iff_infixPair c t).mp ht).trans hsub)
  rw [this] at h
  exact Bool.true_eq_false.mp h

theorem dropWhile_isSuffix (p : Char → Bool) : ∀ l : List Char, l.dropWhile p <:+ l
  | [] => List.suffix_rfl
  | a :: t => by
    by_cases h : p a = true
    · simp only [List.dropWhile, h]
      exact (dropWhile_isSuffix p t).trans (List.suffix_cons a t)
    · have hf : p a = false := by simpa using h
      simp only [List.dropWhile, hf]
      exact List.suffix_rfl

theorem head?_dropWhile (p : Char → Bool) : ∀ (l : List Char) (a : Char),
    (l.dropWhile p).head? = some a → p a = false
  | [], a => by intro h; simp [List.dropWhile] at h
  | b :: t, a => by
    intro h
    by_cases hb : p b = true
    · rw [List.dropWhile_cons_of_pos hb] at h
      exact head?_dropWhile p t a h
    · have hf : p b = false := by simpa using hb
      rw [List.dropWhile_cons_of_neg (by simp [hf])] at h
      simp only [List.head?_cons, Option.some_inj] at h
      rw [← h]
      exact hf

theorem prefix_head?_eq {u l : List Char} (h : u <+: l) (hne : u ≠ []) :
    u.head? = l.head? := by
  rcases h with ⟨t, ht⟩
  cases u with
  | nil => exact absurd rfl hne
  | cons a u' => rw [← ht]; simp

/-- `pyStripChars` is an infix of its input (a prefix of a suffix). -/
theorem pyStripChars_infixOf (cs : List Char) (s : List Char) :
    pyStripChars cs s <:+: s := by
  unfold pyStripChars
  set u := s.dropWhile (· ∈ cs) with hu
  set v := u.reverse.dropWhile (· ∈ cs) with hv
  have h1 : v <:+ u.reverse := dropWhile_isSuffix _ u.reverse
  have h2 : v.reverse <+: u := by
    rw [← List.reverse_reverse u] at h1
    exact (List.reverse_suffix.mp (by simpa using h1) : v.reverse <+: u)
  have h3 : u <:+ s := dropWhile_isSuffix _ s
  exact (List.IsPrefix.isInfix h2).trans (List.IsSuffix.isInfix h3)

theorem mem_pyStripChars (cs : List Char) (s : List Char) (a : Char)
    (h : a ∈ pyStripChars cs s) : a ∈ s :=
  (pyStripChars_infixOf cs s).sublist.mem h

theorem pyStripChars_head? (cs : List Char) (s : List Char) (a : Char)
    (h : (pyStripChars cs s).head? = some a) : (a ∈ cs) = False := by
  unfold pyStripChars at h
  set u := s.dropWhile (· ∈ cs) with hu
  set v := u.reverse.dropWhile (· ∈ cs) with hv
  have h1 : v <:+ u.reverse := dropWhile_isSuffix _ u.reverse
  have h2 : v.reverse <+: u := by
    rw [← List.reverse_reverse u] at h1
    exact List.reverse_suffix.mp (by simpa using h1)
  have hne : v.reverse ≠ [] := by
    intro hnil
    rw [hnil] at h
    simp at h
  have := prefix_head?_eq h2 hne
  rw [this] at h
  have := head?_dropWhile (· ∈ cs) s a h
  simpa using this

theorem pyStripChars_getLast? (cs : List Char) (s : List Char) (a : Char)
    (h : (pyStripChars cs s).getLast? = some a) : (a ∈ cs) = False := by
  unfold pyStripChars at h
  rw [List.getLast?_reverse] at h
  have := head?_dropWhile (· ∈ cs) _ a h
  simpa using this

theorem take_infixOf (n : Nat) (l : List Char) : l.take n <:+: l :=
  List.IsPrefix.isInfix (List.take_prefix n l)

theorem dropWhile_eq_self_of_head (p : Char → Bool) (l : List Char)
    (h : ∀ a, l.head? = some a → p a = false) : l.dropWhile p = l := by
  cases l with
  | nil => rfl
  | cons a t =>
    have := h a (by simp)
    rw [List.dropWhile_cons_of_neg (by simp [this])]

/-- `strip` is the identity when neither end holds a stripped character. -/
theorem pyStripChars_eq_self (cs : List Char) (l : List Char)
    (hhead : ∀ a, l.head? = some a → (a ∈ cs) = False)
    (hlast : ∀ a, l.getLast? = some a → (a ∈ cs) = False) :
    pyStripChars cs l = l := by
  unfold pyStripChars
  have h1 : l.dropWhile (· ∈ cs) = l := by
    apply dropWhile_eq_self_of_head
    intro a ha
    have := hhead a ha
    simp [this]
  rw [h1]
  have h2 : l.reverse.dropWhile (· ∈ cs) = l.reverse := by
    apply dropWhile_eq_self_of_head
    intro a ha
    rw [List.head?_reverse] at ha
    have := hlast a ha
    simp [this]
  rw [h2, List.reverse_reverse]

/-! ### Invariants of `sanitize_filename`'s output -/

theorem sanitizeChar_mem_allowed (x : Char) :
    sanitizeChar x ∈ allowedFilenameChars := by
  unfold sanitizeChar
  by_cases h1 : pyIsSpace x = true
  · simp only [h1, if_pos]
    decide
  · have h1' : pyIsSpace x = false := by simpa using h1
    simp only [h1', Bool.false_eq_true, if_neg, not_false_eq_true]
    by_cases h2 : x ∈ allowedFilenameChars
    · simp [h2]
    · simp only [h2, if_neg, not_false_eq_true]
      decide

theorem allowed_not_space : ∀ a ∈ allowedFilenameChars, pyIsSpace a = false := by
  decide

theorem allowed_sanitizeChar_id (a : Char) (h : a ∈ allowedFilenameChars) :
    sanitizeChar a = a := by
  unfold sanitizeChar
  rw [allowed_not_space a h]
  simp [h]

theorem mem_sanitizeCleaned4 (name : List Char) (a : Char)
    (h : a ∈ sanitizeCleaned4 name) : a ∈ allowedFilenameChars := by
  unfold sanitizeCleaned4 at h
  have h3 : a ∈ sanitizeCleaned3 name := by
    split at h
    · exact ((take_infixOf _ _).sublist.mem h)
    · exact h
  have h2 : a ∈ sanitizeCleaned2 name := mem_pyStripChars _ _ a h3
  have h1 : a ∈ sanitizeCleaned1 name := mem_collapsePair '_' a _ _ h2
  have h0 : a ∈ sanitizeCleaned0 name := mem_collapsePair '-' a _ _ h1
  unfold sanitizeCleaned0 at h0
  rcases List.mem_map.mp h0 with ⟨x, _, hx⟩
  rw [← hx]
  exact sanitizeChar_mem_allowed x

theorem mem_sanitizeFilenameL (name : List Char) (a : Char)
    (h : a ∈ sanitizeFilenameL name) : a ∈ allowedFilenameChars := by
  unfold sanitizeFilenameL at h
  split at h
  · have : a = 'f' ∨ a = 'i' ∨ a = 'l' ∨ a = 'e' := by simpa using h
    rcases this with h | h | h | h <;> subst h <;> decide
  · exact mem_sanitizeCleaned4 name a h

theorem sanitizeCleaned4_not_pair (name : List Char) (c : Char)
    (hc : c = '-' ∨ c = '_') :
    containsPair c (sanitizeCleaned4 name) = false := by
  have h2 : containsPair c (sanitizeCleaned2 name) = false := by
    rcases hc with hc | hc <;> subst hc
    · exact collapsePair_preserves_not_pair '_' '-' (by decide) _ _
        (collapsePair_not_contains '-' _ _ le_rfl)
    · exact collapsePair_not_contains '_' _ _ le_rfl
  have h3 : containsPair c (sanitizeCleaned3 name) = false :=
    not_containsPair_mono (pyStripChars_infixOf _ _) h2
  unfold sanitizeCleaned4
  split
  · exact not_containsPair_mono (take_infixOf _ _) h3
  · exact h3

theorem sanitizeFilenameL_not_pair (name : List Char) (c : Char)
    (hc : c = '-' ∨ c = '_') :
    containsPair c (sanitizeFilenameL name) = false := by
  unfold sanitizeFilenameL
  split
  · rcases hc with hc | hc <;> subst hc <;> decide
  · exact sanitizeCleaned4_not_pair name c hc

theorem sanitizeFilenameL_head? (name : List Char) (a : Char)
    (h : (sanitizeFilenameL name).head? = some a) :
    (a ∈ (['-', '_', '.'] : List Char)) = False := by
  unfold sanitizeFilenameL at h
  split at h
  · simp only [List.head?] at h
    have : 'f' = a := by simpa using h
    subst this
    decide
  · next hne =>
    unfold sanitizeCleaned4 at h hne
    have h3 : (sanitizeCleaned3 name).head? = some a := by
      split at h
      · have hpre : (sanitizeCleaned3 name).take MAX_FILENAME_CHARS <+: sanitizeCleaned3 name :=
          List.take_prefix _ _
        have hne' : (sanitizeCleaned3 name).take MAX_FILENAME_CHARS ≠ [] := by
          split at hne
          · exact hne
          · exact hne
        rw [← prefix_head?_eq hpre (by split at hne; exact hne; exact hne)]
        exact h
      · exact h
    exact pyStripChars_head? _ _ a h3

theorem sanitizeFilenameL_length_le (name : List Char) :
    (sanitizeFilenameL name).length ≤ MAX_FILENAME_CHARS := by
  unfold sanitizeFilenameL
  split
  · decide
  · unfold sanitizeCleaned4
    split
    · rw [List.length_take]
      omega
    · omega

theorem sanitizeFilenameL_ne_nil (name : List Char) :
    sanitizeFilenameL name ≠ [] := by
  unfold sanitizeFilenameL
  split
  · decide
  · assumption

theorem map_sanitizeChar_id (l : List Char)
    (h : ∀ a ∈ l, a ∈ allowedFilenameChars) : l.map sanitizeChar = l := by
  induction l with
  | nil => rfl
  | cons a t ih =>
    simp only [List.map_cons]
    rw [allowed_sanitizeChar_id a (h a (by simp)),
      ih (fun b hb => h b (List.mem_cons_of_mem a hb))]

/-- Core idempotence: a second pass of `sanitize_filename` is the identity
whenever the first pass's result does not end in a stripped character
(which can only happen when the hard length cap cut the string just after
a separator). -/
theorem sanitizeFilenameL_idem (name : List Char)
    (hlast : ∀ a, (sanitizeFilenameL name).getLast? = some a →
      (a ∈ (['-', '_', '.'] : List Char)) = False) :
    sanitizeFilenameL (sanitizeFilenameL name) = sanitizeFilenameL name := by
  set t := sanitizeFilenameL name with ht
  have h0 : sanitizeCleaned0 t = t :=
    map_sanitizeChar_id t (fun a ha => mem_sanitizeFilenameL name a (ht ▸ ha))
  have h1 : sanitizeCleaned1 t = t := by
    unfold sanitizeCleaned1
    rw [h0]
    exact collapsePair_of_not_contains '-' _ _
      (sanitizeFilenameL_not_pair name '-' (Or.inl rfl))
  have h2 : sanitizeCleaned2 t = t := by
    unfold sanitizeCleaned2
    rw [h1]
    exact collapsePair_of_not_contains '_' _ _
      (sanitizeFilenameL_not_pair name '_' (Or.inr rfl))
  have h3 : sanitizeCleaned3 t = t := by
    unfold sanitizeCleaned3
    rw [h2]
    exact pyStripChars_eq_self _ _
      (fun a ha => sanitizeFilenameL_head? name a ha)
      (fun a ha => hlast a ha)
  have h4 : sanitizeCleaned4 t = t := by
    unfold sanitizeCleaned4
    rw [h3]
    have hle := sanitizeFilenameL_length_le name
    rw [← ht] at hle
    rw [if_neg (by omega)]
  unfold sanitizeFilenameL
  rw [h4, if_neg (sanitizeFilenameL_ne_nil name)]

/-- The counterexample input for C6: 99 `a`s, a hyphen, then `b`; the
sanitized form is truncated at the cap right after the hyphen. -/
def sanitizeCapInput : String :=
  ⟨List.replicate 99 'a' ++ ['-', 'b']⟩

set_option maxRecDepth 20000 in
/-- C6 counterexample: `sanitize_filename` is not idempotent on the string
of 99 `a`s followed by `-b`.  Its sanitized form is 100 characters ending
in the hyphen the length cap exposed, and a second application strips that
hyphen, yielding a different (99-character) result. -/
theorem C6_sanitize_filename_counterexample :
    sanitize_filename (sanitize_filename sanitizeCapInput) ≠
      sanitize_filename sanitizeCapInput := by
  decide

/-- C6 (amended): `sanitize_filename` is idempotent on every string whose
sanitized form does not end in `-`, `_` or `.`; only truncation at the
hard length cap can produce such an ending, and there a second application
strips the exposed trailing separator. -/
theorem C6_sanitize_filename_idempotent (s : String)
    (h1 : (sanitize_filename s).data.getLast? ≠ some '-')
    (h2 : (sanitize_filename s).data.getLast? ≠ some '_')
    (h3 : (sanitize_filename s).data.getLast? ≠ some '.') :
    sanitize_filename (sanitize_filename s) = sanitize_filename s := by
  have hlast : ∀ a, (sanitizeFilenameL s.data).getLast? = some a →
      (a ∈ (['-', '_', '.'] : List Char)) = False := by
    intro a ha
    apply eq_false
    intro hmem
    have hcase : a = '-' ∨ a = '_' ∨ a = '.' := by simpa using hmem
    have ha' : (sanitize_filename s).data.getLast? = some a := ha
    rcases hcase with h | h | h <;> subst h
    · exact h1 ha'
    · exact h2 ha'
    · exact h3 ha'
  exact congrArg String.mk (sanitizeFilenameL_idem s.data hlast)

/-- Witness for C6's amended theorem at a concrete input. -/
theorem C6_sanitize_filename_idempotent_witness :
    (sanitize_filename "My Report (final)!.txt").data.getLast? ≠ some '-' ∧
      sanitize_filename (sanitize_filename "My Report (final)!.txt") =
        sanitize_filename "My Report (final)!.txt" :=
  ⟨by decide,
    C6_sanitize_filename_idempotent "My Report (final)!.txt"
      (by decide) (by decide) (by decide)⟩

/-! ## Response parsers (`llm_parsers.py`)

The regular expressions of the source are compiled to explicit scanners:
- `_CODE_FENCE_RE.sub` becomes `stripFencesSub`;
- `_find_tag_values`'s `<tag\b[^>]*>(.*?)</tag>` (IGNORECASE, DOTALL)
  becomes `findTagValues`.
`re`'s `\b`/`\w` are modelled over ASCII word characters; the tag names the
program uses are ASCII.  `html.unescape` is modelled on the XML entity
subset (named references with semicolons), which covers every entity the
tag grammar can produce. -/

/-- Lowercasing a character list (`str.lower`, ASCII range). -/
def lowerL (s : List Char) : List Char :=
  s.map Char.toLower

/-- Regex word character (`\w` over ASCII). -/
def isWordChar (c : Char) : Bool :=
  c.isAlpha || c.isDigit || c = '_'

/-- Case-insensitive literal match: if `s` starts with `pat` (compared
lowercased), return the remainder. -/
def ciPrefix : List Char → List Char → Option (List Char)
  | [], s => some s
  | _, [] => none
  | p :: ps, c :: cs =>
    if c.toLower = p.toLower then ciPrefix ps cs else none

/-- `[^>]*>`: skip to the first `>` and return what follows. -/
def skipToGt : List Char → Option (List Char)
  | [] => none
  | '>' :: rest => some rest
  | _ :: rest => skipToGt rest

/-- Match `<tag\b[^>]*>` at the head of `s`; returns the text after `>`. -/
def matchTagOpen (tag : List Char) (s : List Char) : Option (List Char) :=
  match s with
  | '<' :: rest =>
    match ciPrefix tag rest with
    | none => none
    | some after =>
      match after with
      | [] => none
      | c :: _ => if isWordChar c then none else skipToGt after
  | _ => none

/-- Find the earliest case-insensitive `</tag>`; returns the content before
it and the remainder after it. -/
def findTagClose (tag : List Char) : List Char → Option (List Char × List Char)
  | [] => none
  | c :: rest =>
    match ciPrefix ('<' :: '/' :: (tag ++ ['>'])) (c :: rest) with
    | some rem => some ([], rem)
    | none =>
      match findTagClose tag rest with
      | some (content, rem) => some (c :: content, rem)
      | none => none

/-- Left-to-right non-overlapping scan of `_find_tag_values`'s pattern;
each extracted value is `.strip()`ed as in the source.  The fuel is the
input length, which bounds the number of scan steps. -/
def findTagValuesAux (tag : List Char) : Nat → List Char → List (List Char)
  | 0, _ => []
  | fuel + 1, s =>
    match s with
    | [] => []
    | _ :: rest =>
      match matchTagOpen tag s with
      | some afterGt =>
        match findTagClose tag afterGt with
        | some (content, rem) => pyStripWs content :: findTagValuesAux tag fuel rem
        | none => findTagValuesAux tag fuel rest
      | none => findTagValuesAux tag fuel rest

/-- `_find_tag_values` from `llm_parsers.py`. -/
def findTagValues (s : List Char) (tag : List Char) : List (List Char) :=
  findTagValuesAux tag s.length s

/-- Fence-info characters `[a-zA-Z0-9_+-]`. -/
def isFenceInfoChar (c : Char) : Bool :=
  c.isAlpha || c.isDigit || c = '_' || c = '+' || c = '-'

/-- Match ```` ``` ````, an info span, and a newline at the head of `s`. -/
def matchFenceOpen (s : List Char) : Option (List Char) :=
  match s with
  | '`' :: '`' :: '`' :: rest =>
    match rest.dropWhile isFenceInfoChar with
    | '\n' :: r => some r
    | _ => none
  | _ => none

/-- Find the earliest closing ```` ``` ````. -/
def findFenceClose : List Char → Option (List Char × List Char)
  | '`' :: '`' :: '`' :: rest => some ([], rest)
  | c :: rest =>
    match findFenceClose rest with
    | some (content, rem) => some (c :: content, rem)
    | none => none
  | [] => none

/-- `_CODE_FENCE_RE.sub(_unwrap, cleaned)`: replace each fenced block with
its body, scanning left to right. -/
def stripFencesSub : Nat → List Char → List Char
  | 0, s => s
  | fuel + 1, s =>
    match s with
    | [] => []
    | c :: rest =>
      match matchFenceOpen s with
      | some afterNl =>
        match findFenceClose afterNl with
        | some (content, rem) => content ++ stripFencesSub fuel rem
        | none => c :: stripFencesSub fuel rest
      | none => c :: stripFencesSub fuel rest

/-- `_strip_code_fences` from `llm_parsers.py`. -/
def stripCodeFences (text : List Char) : List Char :=
  if text = [] then []
  else
    let cleaned := pyStripWs text
    if listIsSubstring "```".data cleaned = false then cleaned
    else pyStripWs (stripFencesSub cleaned.length cleaned)

/-- `html.unescape`, modelled on the XML entity subset (the full HTML5
named-reference table is out of scope and unreachable for this grammar). -/
def htmlUnescape : List Char → List Char
  | '&' :: 'l' :: 't' :: ';' :: rest => '<' :: htmlUnescape rest
  | '&' :: 'g' :: 't' :: ';' :: rest => '>' :: htmlUnescape rest
  | '&' :: 'a' :: 'm' :: 'p' :: ';' :: rest => '&' :: htmlUnescape rest
  | '&' :: 'q' :: 'u' :: 'o' :: 't' :: ';' :: rest => '"' :: htmlUnescape rest
  | '&' :: 'a' :: 'p' :: 'o' :: 's' :: ';' :: rest => '\'' :: htmlUnescape rest
  | '&' :: '#' :: '3' :: '9' :: ';' :: rest => '\'' :: htmlUnescape rest
  | c :: rest => c :: htmlUnescape rest
  | [] => []

/-- `_coerce_response_body` from `llm_parsers.py`. -/
def coerceResponseBody (text : List Char) : List Char :=
  let cleaned := pyStripChars ['\''] (pyStripChars ['"'] (pyStripWs (stripCodeFences text)))
  if listIsSubstring "&lt;".data cleaned then
    let unescaped := htmlUnescape cleaned
    if unescaped = [] then cleaned else unescaped
  else cleaned

/-- `ParseError(message, raw_text)`. -/
structure PErr where
  message : String
  raw_text : String
deriving DecidableEq, Repr

/-- `RenameResult` dataclass. -/
structure RenameResult where
  new_name : String
  reason : String
  raw_text : String
deriving DecidableEq, Repr

/-- `KeepResult` dataclass. -/
structure KeepResult where
  stem_action : String
  reason : String
  raw_text : String
deriving DecidableEq, Repr

/-- `SortResult` dataclass; the dicts become association lists. -/
structure SortResult where
  assignments : List (String × String)
  raw_text : String
  reasons : List (String × String)
deriving DecidableEq, Repr

/-- `parse_rename_response` from `llm_parsers.py`. -/
def parse_rename_response (text : String) : Except PErr RenameResult :=
  let body := coerceResponseBody text.data
  if body = [] then .error ⟨"Missing required tags in rename response.", text⟩
  else
    let new_names := findTagValues body "new_name".data
    if new_names = [] then .error ⟨"Missing <new_name> in rename response.", text⟩
    else if 1 < new_names.length then
      .error ⟨"Duplicate <new_name> tags in rename response.", text⟩
    else
      let reasons := findTagValues body "reason".data
      if 1 < reasons.length then
        .error ⟨"Duplicate <reason> tags in rename response.", text⟩
      else .ok ⟨⟨new_names.headD []⟩, ⟨reasons.headD []⟩, text⟩

/-- `reason.replace('\\"', '"')` / `.replace("\\'", "'")`: one
non-overlapping replacement pass for a backslash-escaped quote. -/
def replaceEsc (q : Char) : List Char → List Char
  | [] => []
  | [a] => [a]
  | a :: b :: rest =>
    if a = '\\' ∧ b = q then q :: replaceEsc q rest
    else a :: replaceEsc q (b :: rest)

/-- Both escape replacements applied to the keep-parser's reason. -/
def escReplace (l : List Char) : List Char :=
  replaceEsc '\'' (replaceEsc '"' l)

/-- The three legal `stem_action` literals. -/
def stemActionValues : List (List Char) :=
  ["drop".data, "keep".data, "normalize".data]

/-- `parse_keep_response` from `llm_parsers.py` (the `original_stem`
argument is unused by the source body but kept for signature fidelity). -/
def parse_keep_response (text : String) (original_stem : String) :
    Except PErr KeepResult :=
  let _ := original_stem
  let body := coerceResponseBody text.data
  if body = [] then .error ⟨"Missing required tags in keep response.", text⟩
  else
    let stem_actions := findTagValues body "stem_action".data
    if 1 < stem_actions.length then
      .error ⟨"Duplicate <stem_action> tags in keep response.", text⟩
    else
      let reason_values := findTagValues body "reason".data
      if reason_values = [] then .error ⟨"Missing <reason> in keep response.", text⟩
      else if 1 < reason_values.length then
        .error ⟨"Duplicate <reason> tags in keep response.", text⟩
      else
        let reason0 := pyStripWs (reason_values.headD [])
        let stemActionRes : Except PErr (List Char) :=
          match stem_actions with
          | sa :: _ => .ok (lowerL (pyStripWs sa))
          | [] =>
            let keep_values := findTagValues body "keep_original".data
            if keep_values = [] then
              .error ⟨"Missing <stem_action> in keep response.", text⟩
            else if 1 < keep_values.length then
              .error ⟨"Duplicate <keep_original> tags in keep response.", text⟩
            else
              let keep_text := lowerL (pyStripWs (keep_values.headD []))
              .ok (if "t".data.isPrefixOf keep_text ∨ keep_text = "1".data ∨
                      keep_text = "yes".data
                   then "keep".data else "drop".data)
        match stemActionRes with
        | .error e => .error e
        | .ok stem_action =>
          let reason1 := escReplace reason0
          if stem_action ∉ stemActionValues then
            .error ⟨"Invalid <stem_action> value in keep response.", text⟩
          else if reason1 = [] then
            .error ⟨"Missing <reason> in keep response.", text⟩
          else .ok ⟨⟨stem_action⟩, ⟨reason1⟩, text⟩

/-- `parse_sort_response` from `llm_parsers.py`. -/
def parse_sort_response (text : String) (expected_paths : List String) :
    Except PErr SortResult :=
  let body := coerceResponseBody text.data
  if body = [] then .error ⟨"Missing required tags in sort response.", text⟩
  else if expected_paths.length ≠ 1 then
    .error ⟨"Sort responses only support a single file.", text⟩
  else
    let categories := findTagValues body "category".data
    if categories = [] then .error ⟨"Missing <category> in sort response.", text⟩
    else if 1 < categories.length then
      .error ⟨"Duplicate <category> tags in sort response.", text⟩
    else
      let category := pyStripWs (categories.headD [])
      let reasons := findTagValues body "reason".data
      if 1 < reasons.length then
        .error ⟨"Duplicate <reason> tags in sort response.", text⟩
      else
        let reason := pyStripWs (reasons.headD [])
        .ok ⟨[(expected_paths.headD "", ⟨category⟩)], text,
          if reason ≠ [] then [(expected_paths.headD "", ⟨reason⟩)] else []⟩

/-! ### Strict single-occurrence behaviour of the parsers -/

/-- Number of occurrences of a tag that `_find_tag_values` locates in the
coerced response body: the parsers' own notion of "the tag occurs n times". -/
def tagCount (text : String) (tag : String) : Nat :=
  (findTagValues (coerceResponseBody text.data) tag.data).length

theorem findTagValues_nil (tag : List Char) : findTagValues [] tag = [] := rfl

theorem except_isOk_error (e : ε) : (Except.error e : Except ε α).isOk = false := rfl

theorem except_isOk_ok (a : α) : (Except.ok a : Except ε α).isOk = true := rfl

theorem parse_rename_isOk_iff (t : String) :
    (parse_rename_response t).isOk = true ↔
      tagCount t "new_name" = 1 ∧ tagCount t "reason" ≤ 1 := by
  unfold parse_rename_response tagCount
  by_cases hb : coerceResponseBody t.data = []
  · simp [hb, findTagValues_nil, except_isOk_error]
  · cases hn : findTagValues (coerceResponseBody t.data) "new_name".data with
    | nil => simp [hb, hn, except_isOk_error]
    | cons v vs =>
      cases vs with
      | cons v2 vs2 =>
        simp [hb, hn, except_isOk_error]
      | nil =>
        cases hr : findTagValues (coerceResponseBody t.data) "reason".data with
        | nil => simp [hb, hn, hr, except_isOk_ok]
        | cons r rs =>
          cases rs with
          | nil => simp [hb, hn, hr, except_isOk_ok]
          | cons r2 rs2 => simp [hb, hn, hr, except_isOk_error]

theorem parse_rename_ok_new_name (t : String) (r : RenameResult)
    (h : parse_rename_response t = .ok r) :
    r.new_name =
      ⟨(findTagValues (coerceResponseBody t.data) "new_name".data).headD []⟩ := by
  unfold parse_rename_response at h
  by_cases hb : coerceResponseBody t.data = []
  · simp [hb] at h
  · cases hn : findTagValues (coerceResponseBody t.data) "new_name".data with
    | nil => simp [hb, hn] at h
    | cons v vs =>
      cases vs with
      | cons v2 vs2 => simp [hb, hn] at h
      | nil =>
        cases hr : findTagValues (coerceResponseBody t.data) "reason".data with
        | nil =>
          simp [hb, hn, hr] at h
          subst h
          simp [hn]
        | cons r0 rs =>
          cases rs with
          | nil =>
            simp [hb, hn, hr] at h
            subst h
            simp [hn]
          | cons r2 rs2 => simp [hb, hn, hr] at h

theorem parse_sort_isOk_iff (t path : String) :
    (parse_sort_response t [path]).isOk = true ↔
      tagCount t "category" = 1 ∧ tagCount t "reason" ≤ 1 := by
  unfold parse_sort_response tagCount
  by_cases hb : coerceResponseBody t.data = []
  · simp [hb, findTagValues_nil, except_isOk_error]
  · cases hc : findTagValues (coerceResponseBody t.data) "category".data with
    | nil => simp [hb, hc, except_isOk_error]
    | cons v vs =>
      cases vs with
      | cons v2 vs2 => simp [hb, hc, except_isOk_error]
      | nil =>
        cases hr : findTagValues (coerceResponseBody t.data) "reason".data with
        | nil => simp [hb, hc, hr, except_isOk_ok]
        | cons r0 rs =>
          cases rs with
          | nil => simp [hb, hc, hr, except_isOk_ok]
          | cons r2 rs2 => simp [hb, hc, hr, except_isOk_error]

theorem parse_sort_ok_assignments (t path : String) (r : SortResult)
    (h : parse_sort_response t [path] = .ok r) :
    r.assignments =
      [(path,
        ⟨pyStripWs ((findTagValues (coerceResponseBody t.data) "category".data).headD [])⟩)] := by
  unfold parse_sort_response at h
  by_cases hb : coerceResponseBody t.data = []
  · simp [hb] at h
  · cases hc : findTagValues (coerceResponseBody t.data) "category".data with
    | nil => simp [hb, hc] at h
    | cons v vs =>
      cases vs with
      | cons v2 vs2 => simp [hb, hc] at h
      | nil =>
        cases hr : findTagValues (coerceResponseBody t.data) "reason".data with
        | nil =>
          simp [hb, hc, hr] at h
          subst h
          simp [hc]
        | cons r0 rs =>
          cases rs with
          | nil =>
            simp [hb, hc, hr] at h
            subst h
            simp [hc]
          | cons r2 rs2 => simp [hb, hc, hr] at h

theorem parse_keep_isOk_iff (t stem : String) :
    (parse_keep_response t stem).isOk = true ↔
      tagCount t "reason" = 1 ∧
      escReplace (pyStripWs
        ((findTagValues (coerceResponseBody t.data) "reason".data).headD [])) ≠ [] ∧
      ((tagCount t "stem_action" = 1 ∧
          lowerL (pyStripWs
            ((findTagValues (coerceResponseBody t.data) "stem_action".data).headD []))
            ∈ stemActionValues) ∨
        (tagCount t "stem_action" = 0 ∧ tagCount t "keep_original" = 1)) := by
  unfold parse_keep_response tagCount
  by_cases hb : coerceResponseBody t.data = []
  · simp [hb, findTagValues_nil, except_isOk_error]
  · cases hsa : findTagValues (coerceResponseBody t.data) "stem_action".data with
    | cons s1 ss =>
      cases ss with
      | cons s2 ss2 => simp [hb, hsa, except_isOk_error]
      | nil =>
        cases hr : findTagValues (coerceResponseBody t.data) "reason".data with
        | nil => simp [hb, hsa, hr, except_isOk_error]
        | cons r0 rs =>
          cases rs with
          | cons r2 rs2 => simp [hb, hsa, hr, except_isOk_error]
          | nil =>
            by_cases hv : lowerL (pyStripWs s1) ∈ stemActionValues
            · by_cases hre : escReplace (pyStripWs r0) = []
              · simp [hb, hsa, hr, hv, hre, except_isOk_error]
              · simp [hb, hsa, hr, hv, hre, except_isOk_ok]
            · simp [hb, hsa, hr, hv, except_isOk_error]
    | nil =>
      cases hr : findTagValues (coerceResponseBody t.data) "reason".data with
      | nil => simp [hb, hsa, hr, except_isOk_error]
      | cons r0 rs =>
        cases rs with
        | cons r2 rs2 => simp [hb, hsa, hr, except_isOk_error]
        | nil =>
          cases hk : findTagValues (coerceResponseBody t.data) "keep_original".data with
          | nil => simp [hb, hsa, hr, hk, except_isOk_error]
          | cons k1 ks =>
            cases ks with
            | cons k2 ks2 => simp [hb, hsa, hr, hk, except_isOk_error]
            | nil =>
              by_cases hcond : "t".data.isPrefixOf (lowerL (pyStripWs k1)) ∨
                  lowerL (pyStripWs k1) = "1".data ∨ lowerL (pyStripWs k1) = "yes".data
              · simp only [List.isPrefixOf_iff_prefix] at hcond
                by_cases hre : escReplace (pyStripWs r0) = []
                · simp [hb, hsa, hr, hk, hcond, hre, stemActionValues, except_isOk_error]
                · simp [hb, hsa, hr, hk, hcond, hre, stemActionValues, except_isOk_ok]
              · simp only [List.isPrefixOf_iff_prefix, not_or] at hcond
                by_cases hre : escReplace (pyStripWs r0) = []
                · simp [hb, hsa, hr, hk, hcond, hre, stemActionValues, except_isOk_error]
                · simp [hb, hsa, hr, hk, hcond, hre, stemActionValues, except_isOk_ok]

/-- C1: each parser accepts a response only when every required tag occurs
exactly once in the coerced body — zero occurrences and duplicates are
parse errors — and on success it returns that single tag's value.  (Code
fences and surrounding chatter are removed/ignored by the body coercion,
as the witness exercises concretely.) -/
theorem C1_strict_single_occurrence_parsing (t stem path : String) :
    ((parse_rename_response t).isOk = true ↔
       tagCount t "new_name" = 1 ∧ tagCount t "reason" ≤ 1) ∧
    (∀ r, parse_rename_response t = .ok r →
       r.new_name =
         ⟨(findTagValues (coerceResponseBody t.data) "new_name".data).headD []⟩) ∧
    ((parse_sort_response t [path]).isOk = true ↔
       tagCount t "category" = 1 ∧ tagCount t "reason" ≤ 1) ∧
    (∀ r, parse_sort_response t [path] = .ok r →
       r.assignments =
         [(path,
           ⟨pyStripWs
             ((findTagValues (coerceResponseBody t.data) "category".data).headD [])⟩)]) ∧
    ((parse_keep_response t stem).isOk = true ↔
       tagCount t "reason" = 1 ∧
       escReplace (pyStripWs
         ((findTagValues (coerceResponseBody t.data) "reason".data).headD [])) ≠ [] ∧
       ((tagCount t "stem_action" = 1 ∧
           lowerL (pyStripWs
             ((findTagValues (coerceResponseBody t.data) "stem_action".data).headD []))
             ∈ stemActionValues) ∨
         (tagCount t "stem_action" = 0 ∧ tagCount t "keep_original" = 1))) :=
  ⟨parse_rename_isOk_iff t,
    fun r h => parse_rename_ok_new_name t r h,
    parse_sort_isOk_iff t path,
    fun r h => parse_sort_ok_assignments t path r h,
    parse_keep_isOk_iff t stem⟩

/-- Witness for C1: a single tag among chatter and code fences parses (and
yields that tag's value), zero occurrences fail, duplicates fail. -/
theorem C1_strict_single_occurrence_parsing_witness :
    (parse_rename_response "Sure! ```\n<new_name>A.pdf</new_name>\n``` done").isOk
      = true ∧
    (parse_rename_response "<reason>only a reason</reason>").isOk = false ∧
    (parse_rename_response "<new_name>a</new_name><new_name>b</new_name>").isOk
      = false ∧
    (parse_sort_response "<category>Document</category>" ["/tmp/a.pdf"]).isOk
      = true ∧
    (parse_keep_response "<stem_action>keep</stem_action><reason>ok</reason>"
      "abc").isOk = true := by
  refine ⟨?_, ?_, ?_, ?_, ?_⟩
  · exact (C1_strict_single_occurrence_parsing
      "Sure! ```\n<new_name>A.pdf</new_name>\n``` done" "abc" "/tmp/a.pdf").1.mpr
      (by decide)
  · rw [Bool.eq_false_iff]
    intro htrue
    have h := (C1_strict_single_occurrence_parsing
      "<reason>only a reason</reason>" "abc" "/tmp/a.pdf").1.mp htrue
    revert h
    decide
  · rw [Bool.eq_false_iff]
    intro htrue
    have h := (C1_strict_single_occurrence_parsing
      "<new_name>a</new_name><new_name>b</new_name>" "abc" "/tmp/a.pdf").1.mp htrue
    revert h
    decide
  · exact (C1_strict_single_occurrence_parsing
      "<category>Document</category>" "abc" "/tmp/a.pdf").2.2.1.mpr (by decide)
  · exact (C1_strict_single_occurrence_parsing
      "<stem_action>keep</stem_action><reason>ok</reason>" "abc" "/tmp/a.pdf").2.2.2.2.mpr
      (by decide)

/-- C10: with the legacy `keep_original` tag present once (and no
`stem_action` tag), any value that does not start with `t` and is not `1`
or `yes` — e.g. `maybe` or an empty value — maps to stem action `drop`
without a parse error, provided a non-empty `reason` tag occurs exactly
once. -/
theorem C10_legacy_keep_original_nonboolean_drops (t stem : String)
    (v rv : List Char)
    (hsa : findTagValues (coerceResponseBody t.data) "stem_action".data = [])
    (hk : findTagValues (coerceResponseBody t.data) "keep_original".data = [v])
    (hv : ¬("t".data.isPrefixOf (lowerL (pyStripWs v)) ∨
        lowerL (pyStripWs v) = "1".data ∨ lowerL (pyStripWs v) = "yes".data))
    (hr : findTagValues (coerceResponseBody t.data) "reason".data = [rv])
    (hre : escReplace (pyStripWs rv) ≠ []) :
    parse_keep_response t stem = .ok ⟨"drop", ⟨escReplace (pyStripWs rv)⟩, t⟩ := by
  have hb : ¬coerceResponseBody t.data = [] := by
    intro hnil
    rw [hnil, findTagValues_nil] at hk
    simp at hk
  unfold parse_keep_response
  simp only [List.isPrefixOf_iff_prefix, not_or] at hv
  simp [hb, hsa, hk, hr, hv, hre, stemActionValues]

/-- Witness for C10 at the concrete reply `<keep_original>maybe</…>`. -/
theorem C10_legacy_keep_original_nonboolean_drops_witness :
    parse_keep_response
        "<keep_original>maybe</keep_original><reason>legacy path</reason>" "abc" =
      .ok ⟨"drop", "legacy path",
        "<keep_original>maybe</keep_original><reason>legacy path</reason>"⟩ :=
  C10_legacy_keep_original_nonboolean_drops
    "<keep_original>maybe</keep_original><reason>legacy path</reason>" "abc"
    "maybe".data "legacy path".data
    (by decide) (by decide) (by decide) (by decide) (by decide)

/-! ## Category normalization (`llm.py`, `_normalize_category`) -/

/-- `ALLOWED_CATEGORIES` from `llm_utils.py`. -/
def ALLOWED_CATEGORIES : List String :=
  ["Document", "Spreadsheet", "Presentation", "Image", "Audio", "Video",
   "Code", "Data", "Project", "Other"]

/-- `str.lower` on `String` (ASCII range). -/
def lowerS (s : String) : String := ⟨lowerL s.data⟩

/-- `str.strip()` on `String`. -/
def pyStripWsS (s : String) : String := ⟨pyStripWs s.data⟩

/-- The alias table inside `_normalize_category` (`llm.py`). -/
def categoryAliases : List (String × String) :=
  [("doc", "Document"), ("docs", "Document"), ("spreadsheet", "Spreadsheet"),
   ("sheet", "Spreadsheet"), ("image", "Image"), ("img", "Image"),
   ("audio", "Audio"), ("video", "Video"), ("code", "Code"),
   ("data", "Data"), ("project", "Project")]

/-- `_normalize_category` from `llm.py`: first category whose lowercase
form matches exactly or followed by a space, `(` or `-`; then the alias
table; otherwise `"Other"`. -/
def normalize_category (value : String) : String :=
  if value = "" then "Other"
  else
    let val := lowerS (pyStripWsS value)
    match ALLOWED_CATEGORIES.find? (fun cat =>
        val = lowerS cat || (lowerS cat ++ " ").isPrefixOf val ||
        (lowerS cat ++ "(").isPrefixOf val ||
        (lowerS cat ++ "-").isPrefixOf val) with
    | some cat => cat
    | none =>
      match categoryAliases.lookup val with
      | some c => c
      | none => "Other"

theorem lookup_mem_snd (al : List (String × String)) (v c : String)
    (h : al.lookup v = some c) : c ∈ al.map Prod.snd := by
  induction al with
  | nil => simp [List.lookup] at h
  | cons kv es ih =>
    rcases kv with ⟨k, w⟩
    by_cases hk : v = k
    · simp [List.lookup, hk] at h
      simp [h]
    · have hbeq : (v == k) = false := by simp [hk]
      have : es.lookup v = some c := by
        simpa [List.lookup, hbeq] using h
      exact List.mem_cons_of_mem _ (ih this)

theorem normalize_category_mem (v : String) :
    normalize_category v ∈ ALLOWED_CATEGORIES := by
  unfold normalize_category
  by_cases hv : v = ""
  · simp [hv]
    decide
  · simp only [hv, if_neg, not_false_eq_true]
    cases hf : ALLOWED_CATEGORIES.find? (fun cat =>
        lowerS (pyStripWsS v) = lowerS cat ||
        (lowerS cat ++ " ").isPrefixOf (lowerS (pyStripWsS v)) ||
        (lowerS cat ++ "(").isPrefixOf (lowerS (pyStripWsS v)) ||
        (lowerS cat ++ "-").isPrefixOf (lowerS (pyStripWsS v))) with
    | some cat =>
      simp only [hf]
      exact List.mem_of_find?_eq_some hf
    | none =>
      simp only [hf]
      cases hl : categoryAliases.lookup (lowerS (pyStripWsS v)) with
      | some c =>
        simp only [hl]
        have hmem := lookup_mem_snd _ _ _ hl
        have hsub : ∀ x ∈ categoryAliases.map Prod.snd, x ∈ ALLOWED_CATEGORIES := by
          decide
        exact hsub c hmem
      | none =>
        simp only [hl]
        decide

/-- C5 counterexample: `parse_sort_response` passes unmatched category text
straight through — `Bananas` is neither normalized to `Other` nor
rejected, contradicting the claim that parsing normalizes the category. -/
theorem C5_sort_category_passthrough_counterexample :
    parse_sort_response "<category>Bananas</category>" ["/tmp/a.pdf"] =
      .ok ⟨[("/tmp/a.pdf", "Bananas")], "<category>Bananas</category>", []⟩ ∧
    "Bananas" ∉ ALLOWED_CATEGORIES := by
  constructor
  · decide
  · decide

/-- C5 (amended): `parse_sort_response` returns the category tag's text
as-is (whitespace-stripped, unnormalized); the normalization against the
closed category set — with suffix/separator tolerance, the alias table,
and the `"Other"` default — is `_normalize_category` in the legacy
`llm.py` client, whose result always lies in the fixed category list. -/
theorem C5_sort_category_normalization (value t path : String) :
    (∀ r, parse_sort_response t [path] = .ok r →
      r.assignments =
        [(path,
          ⟨pyStripWs
            ((findTagValues (coerceResponseBody t.data) "category".data).headD [])⟩)]) ∧
    normalize_category value ∈ ALLOWED_CATEGORIES :=
  ⟨fun r h => parse_sort_ok_assignments t path r h, normalize_category_mem value⟩

/-- Witness for C5's amended theorem: alias and unmatched values both land
inside the closed category set, and the parser passes text through. -/
theorem C5_sort_category_normalization_witness :
    normalize_category "Bananas" ∈ ALLOWED_CATEGORIES ∧
    (parse_sort_response "<category>Docs-and-more</category>" ["/p"] =
        .ok ⟨[("/p", "Docs-and-more")], "<category>Docs-and-more</category>", []⟩ →
      (⟨[("/p", "Docs-and-more")], "<category>Docs-and-more</category>", []⟩ :
          SortResult).assignments =
        [("/p",
          ⟨pyStripWs
            ((findTagValues (coerceResponseBody
              "<category>Docs-and-more</category>".data) "category".data).headD [])⟩)]) :=
  ⟨(C5_sort_category_normalization "Bananas" "x" "/p").2,
    (C5_sort_category_normalization "x" "<category>Docs-and-more</category>" "/p").1 _⟩

/-! ## `normalize_reason` (`llm_utils.py`) -/

/-- `str.split()` with no argument: non-empty runs between whitespace. -/
def pySplitWs : List Char → List (List Char)
  | [] => []
  | c :: rest =>
    if pyIsSpace c then pySplitWs rest
    else
      match pySplitWs rest with
      | [] => [[c]]
      | w :: ws =>
        match rest with
        | [] => [[c]]
        | r :: _ => if pyIsSpace r then [c] :: w :: ws else (c :: w) :: ws

/-- `" ".join(words)`. -/
def joinSpace (ws : List (List Char)) : List Char :=
  match ws with
  | [] => []
  | [w] => w
  | w :: rest => w ++ ' ' :: joinSpace rest

/-- The `_PLACEHOLDER_REASONS` set from `llm_utils.py`. -/
def placeholderReasons : List (List Char) :=
  ["short justification".data, "short reason".data, "optional".data,
   "n/a".data, "na".data]

/-- Characters kept by `re.sub(r"[^a-z0-9 ]+", "", lower)`. -/
def isPlainChar (c : Char) : Bool :=
  ('a' ≤ c && c ≤ 'z') || c.isDigit || c = ' '

/-- `normalize_reason` from `llm_utils.py`. -/
def normalize_reason (reason : String) : String :=
  if reason = "" then ""
  else
    let cleaned := joinSpace (pySplitWs reason.data)
    let lower := pyStripWs (lowerL cleaned)
    let plain := pyStripWs (lower.filter isPlainChar)
    if lower ∈ placeholderReasons ∨ plain ∈ placeholderReasons then ""
    else if listIsSubstring "short justification".data lower ∨
        listIsSubstring "short reason".data lower then ""
    else if listIsSubstring "justification".data lower ∧
        (pySplitWs lower).length ≤ 3 then ""
    else ⟨cleaned⟩

/-! ## Prompt builders for sorting (`llm_prompts.py`) -/

/-- `SortItem` dataclass. -/
structure SortItem where
  path : String
  name : String
  ext : String
  description : String
deriving DecidableEq, Repr

/-- `SortRequest` dataclass. -/
structure SortRequest where
  files : List SortItem
  context : Option String

/-- `SORT_SCHEMA_XML` from `llm_prompts.py`. -/
def SORT_SCHEMA_XML : String := "<file path=\"/path/to/file.ext\">Category</file>"

/-- `build_sort_prompt` from `llm_prompts.py`; `if req.context:` is Python
truthiness, so `None` and the empty string both omit the context line. -/
def build_sort_prompt (req : SortRequest) : String :=
  let ctxLines : List String :=
    match req.context with
    | some c => if c ≠ "" then ["Context: " ++ c] else []
    | none => []
  let lines :=
    ctxLines ++
    ["Sorting mode: assign an allowed category to each file path.",
     "Allowed categories:"] ++
    ALLOWED_CATEGORIES.map (fun cat => "- " ++ cat) ++
    ["Files:"] ++
    req.files.map (fun item =>
      "path=" ++ item.path ++ " | name=" ++ item.name ++ " | ext=" ++
      item.ext ++ " | desc=" ++ item.description) ++
    ["Return only the tags shown below. Do not include code fences.",
     "Do not wrap tags in any outer container.",
     SORT_SCHEMA_XML]
  String.intercalate "\n" lines

/-- `build_format_fix_prompt` from `llm_prompts.py`. -/
def build_format_fix_prompt (original_prompt : String) (schema_xml : String) :
    String :=
  String.intercalate "\n"
    ["Your previous reply did not match the required tags.",
     "Output only the tags below with no extra text.",
     schema_xml, "", original_prompt]

/-- Modelled from the spec: `SORT_EXAMPLE_OUTPUT` is imported by
`llm_engine.py` from `llm_prompts` but its definition is absent from
`src/`; per the spec the format-fix prompt restates "the exact accepted
grammar", which for sort replies is a `category` tag plus an optional
`reason` tag.  No claim depends on its exact text. -/
def SORT_EXAMPLE_OUTPUT : String :=
  "<category>Document</category>\n<reason>short reason</reason>"

/-! ## The orchestration engine (`llm_engine.py`)

A transport is modelled as a deterministic script: its `generate` is a
function from the per-transport call index to either a reply text or a
raised exception (an exception value carries the class name and message
the source's classifiers sniff).  The engine functions thread an explicit
trace of `generate` calls — the pair (transport index, prompt) — so that
call-count and ordering claims can be stated.  `_print_llm` and
`log_parse_failure` (the latter absent from `src/`; per the spec §7 all
failure logging is diagnostic only) do not influence control flow and are
not modelled. -/

/-- A Python exception value as the classifiers see it. -/
structure PyExc where
  className : String
  message : String
deriving DecidableEq, Repr

/-- Substring test on `String`s. -/
def strContains (needle haystack : String) : Bool :=
  listIsSubstring needle.data haystack.data

/-- `_is_guardrail_error` from `llm_utils.py`.  The `isinstance` check
against `GuardrailViolationError` is subsumed by the class-name heuristic
(that class's name contains "guardrail" lowercased). -/
def _is_guardrail_error (e : PyExc) : Bool :=
  strContains "guardrail" (lowerS e.className) ||
  (strContains "guardrail" (lowerS e.message) &&
   strContains "unsafe" (lowerS e.message))

/-- Modelled from the spec: `_is_context_window_error` is imported by
`llm_engine.py` from `llm_utils` but its definition is absent from `src/`.
The spec's failure taxonomy folds it into the retry-then-skip class
alongside guardrail refusals; it is modelled as the analogous message
heuristic. -/
def _is_context_window_error (e : PyExc) : Bool :=
  strContains "context window" (lowerS e.message)

/-- The condition of `llm_engine.py` lines 141/152: an error that earns
the minimal-prompt retry / next-transport treatment. -/
def isRetryableExc (e : PyExc) : Bool :=
  _is_guardrail_error e || _is_context_window_error e

/-- One scripted `generate` outcome. -/
inductive GenResult where
  | ok (text : String)
  | raise (e : PyExc)
deriving DecidableEq, Repr

/-- A transport: named, with a deterministic per-call-index script. -/
structure ScriptedTransport where
  name : String
  behavior : Nat → GenResult

/-- One recorded `generate` call. -/
structure Call where
  tIdx : Nat
  prompt : String
deriving DecidableEq, Repr

/-- Number of calls the trace records against transport `i`. -/
def countCalls (tr : List Call) (i : Nat) : Nat :=
  tr.countP (fun c => c.tIdx == i)

/-- `transport.generate(...)`: look up the scripted outcome for this
transport's next call index and record the call. -/
def callT (t : ScriptedTransport) (idx : Nat) (prompt : String)
    (tr : List Call) : GenResult × List Call :=
  (t.behavior (countCalls tr idx), tr ++ [⟨idx, prompt⟩])

/-- The error of the source's final `raise RuntimeError(...)`. -/
def noTransportsExc : PyExc :=
  ⟨"RuntimeError", "No LLM transports available."⟩

/-- The `for idx, transport in enumerate(self.transports)` loop of
`_generate_with_fallback`, from position `idx` onwards. -/
def genFallbackAux (prompt : String) (retryPrompt : Option String) :
    Nat → List ScriptedTransport → Option PyExc → List Call →
    Except PyExc String × List Call
  | _, [], lastExc, tr =>
    match lastExc with
    | some e => (.error e, tr)
    | none => (.error noTransportsExc, tr)
  | idx, t :: rest, _lastExc, tr =>
    match callT t idx prompt tr with
    | (.ok text, tr1) => (.ok text, tr1)
    | (.raise e, tr1) =>
      if isRetryableExc e then
        match retryPrompt, idx with
        | some rp, 0 =>
          if rp = "" then genFallbackAux prompt retryPrompt 1 rest (some e) tr1
          else
            match callT t 0 rp tr1 with
            | (.ok text, tr2) => (.ok text, tr2)
            | (.raise e2, tr2) =>
              if isRetryableExc e2 then
                genFallbackAux prompt retryPrompt 1 rest (some e2) tr2
              else (.error e2, tr2)
        | _, _ => genFallbackAux prompt retryPrompt (idx + 1) rest (some e) tr1
      else (.error e, tr1)

/-- `_generate_with_fallback` from `llm_engine.py`. -/
def genFallback (ts : List ScriptedTransport) (prompt : String)
    (retryPrompt : Option String) (tr : List Call) :
    Except PyExc String × List Call :=
  genFallbackAux prompt retryPrompt 0 ts none tr

/-- An engine-level failure: a propagated transport exception or a parse
error. -/
inductive EngErr where
  | exc (e : PyExc)
  | parse (p : PErr)
deriving DecidableEq, Repr

/-- The `for transport in self.transports` format-fix loop of
`_parse_with_retry`.  In the source, the guardrail and non-guardrail
branches of the `except` clause both record the error and continue. -/
def parseWithRetryAux {α : Type} (parser : String → Except PErr α)
    (fixPrompt : String) (raw : String) :
    Nat → List ScriptedTransport → Option PErr → Option PyExc →
    Option String → List Call → Except EngErr α × List Call
  | _, [], lastParse, lastTransport, lastFixed, tr =>
    match lastParse with
    | some pe => (.error (.parse ⟨pe.message, lastFixed.getD raw⟩), tr)
    | none =>
      match lastTransport with
      | some e => (.error (.exc e), tr)
      | none => (.error (.parse ⟨"Format-fix retry failed.", ""⟩), tr)
  | idx, t :: rest, lastParse, lastTransport, lastFixed, tr =>
    match callT t idx fixPrompt tr with
    | (.raise e, tr1) =>
      parseWithRetryAux parser fixPrompt raw (idx + 1) rest lastParse
        (some e) lastFixed tr1
    | (.ok fixed, tr1) =>
      match parser fixed with
      | .ok r => (.ok r, tr1)
      | .error pe =>
        parseWithRetryAux parser fixPrompt raw (idx + 1) rest (some pe)
          lastTransport (some fixed) tr1

/-- `_parse_with_retry` from `llm_engine.py`. -/
def parseWithRetry {α : Type} (ts : List ScriptedTransport)
    (parser : String → Except PErr α) (originalPrompt exampleOutput raw : String)
    (tr : List Call) : Except EngErr α × List Call :=
  match parser raw with
  | .ok r => (.ok r, tr)
  | .error _ =>
    parseWithRetryAux parser (build_format_fix_prompt originalPrompt exampleOutput)
      raw 0 ts none none none tr

/-- The common invocation shape of `rename`/`stem_action`/one `sort` item:
`_generate_with_fallback`, then `_parse_with_retry` on the raw text. -/
def engineInvoke {α : Type} (ts : List ScriptedTransport) (prompt : String)
    (retryPrompt : Option String) (exampleOutput : String)
    (parser : String → Except PErr α) (tr : List Call) :
    Except EngErr α × List Call :=
  match genFallback ts prompt retryPrompt tr with
  | (.error e, tr1) => (.error (.exc e), tr1)
  | (.ok raw, tr1) => parseWithRetry ts parser prompt exampleOutput raw tr1

/-- `dict.__setitem__`: overwrite in place or append. -/
def setAssoc (m : List (String × String)) (k v : String) :
    List (String × String) :=
  if m.any (fun p => p.1 == k) then
    m.map (fun p => if p.1 == k then (k, v) else p)
  else m ++ [(k, v)]

/-- `dict.update` / the per-pair assignment loop. -/
def updateAssoc (m kv : List (String × String)) : List (String × String) :=
  kv.foldl (fun acc p => setAssoc acc p.1 p.2) m

/-- One iteration of `LLMEngine.sort`'s per-item loop. -/
def engineSortOne (ts : List ScriptedTransport) (context : Option String)
    (item : SortItem) (tr : List Call) : Except EngErr SortResult × List Call :=
  engineInvoke ts (build_sort_prompt ⟨[item], context⟩) none SORT_EXAMPLE_OUTPUT
    (fun text => parse_sort_response text [item.path]) tr

/-- The `for item in files` loop of `LLMEngine.sort`, threading the
accumulated assignments, normalized reasons and last raw text;
an exception from any item propagates out of the whole loop. -/
def engineSortAux (ts : List ScriptedTransport) (context : Option String) :
    List SortItem → List (String × String) → List (String × String) →
    String → List Call → Except EngErr SortResult × List Call
  | [], assignments, reasons, lastRaw, tr => (.ok ⟨assignments, lastRaw, reasons⟩, tr)
  | item :: rest, assignments, reasons, _lastRaw, tr =>
    match engineSortOne ts context item tr with
    | (.error e, tr1) => (.error e, tr1)
    | (.ok result, tr1) =>
      engineSortAux ts context rest (updateAssoc assignments result.assignments)
        (updateAssoc reasons
          (result.reasons.map (fun p => (p.1, normalize_reason p.2))))
        result.raw_text tr1

/-- `LLMEngine.sort` from `llm_engine.py`. -/
def LLMEngine_sort (ts : List ScriptedTransport) (context : Option String)
    (files : List SortItem) : Except EngErr SortResult × List Call :=
  if files = [] then (.ok ⟨[], "", []⟩, [])
  else engineSortAux ts context files [] [] "" []

/-- C2: with transports `[A, B]` where A replies unparseably on both its
initial call and its format-fix call and B replies parseably on its
format-fix call, a one-item sort invocation calls A exactly twice and B
exactly once, issues the format-fix attempts in transport order starting
from transport 0, and returns the result parsed from B's reply. -/
theorem C2_format_fix_retry_order
    (A B : ScriptedTransport) (ctx : Option String) (item : SortItem)
    (a0 a1 b0 : String) (e0 e1 : PErr) (r : SortResult)
    (hA0 : A.behavior 0 = .ok a0) (hA1 : A.behavior 1 = .ok a1)
    (hB0 : B.behavior 0 = .ok b0)
    (hpa0 : parse_sort_response a0 [item.path] = .error e0)
    (hpa1 : parse_sort_response a1 [item.path] = .error e1)
    (hpb : parse_sort_response b0 [item.path] = .ok r) :
    LLMEngine_sort [A, B] ctx [item] =
      (.ok ⟨r.assignments, r.raw_text,
         updateAssoc [] (r.reasons.map (fun p => (p.1, normalize_reason p.2)))⟩,
       [⟨0, build_sort_prompt ⟨[item], ctx⟩⟩,
        ⟨0, build_format_fix_prompt (build_sort_prompt ⟨[item], ctx⟩)
              SORT_EXAMPLE_OUTPUT⟩,
        ⟨1, build_format_fix_prompt (build_sort_prompt ⟨[item], ctx⟩)
              SORT_EXAMPLE_OUTPUT⟩]) ∧
    countCalls (LLMEngine_sort [A, B] ctx [item]).2 0 = 2 ∧
    countCalls (LLMEngine_sort [A, B] ctx [item]).2 1 = 1 := by
  have hmain : LLMEngine_sort [A, B] ctx [item] =
      (.ok ⟨r.assignments, r.raw_text,
         updateAssoc [] (r.reasons.map (fun p => (p.1, normalize_reason p.2)))⟩,
       [⟨0, build_sort_prompt ⟨[item], ctx⟩⟩,
        ⟨0, build_format_fix_prompt (build_sort_prompt ⟨[item], ctx⟩)
              SORT_EXAMPLE_OUTPUT⟩,
        ⟨1, build_format_fix_prompt (build_sort_prompt ⟨[item], ctx⟩)
              SORT_EXAMPLE_OUTPUT⟩]) := by
    have hupd : updateAssoc [] r.assignments = r.assignments := by
      have hshape := parse_sort_ok_assignments b0 item.path r hpb
      rw [hshape]
      rfl
    rw [← hupd]
    simp [LLMEngine_sort, engineSortAux, engineSortOne, engineInvoke, genFallback,
      genFallbackAux, parseWithRetry, parseWithRetryAux, callT, countCalls,
      List.countP, List.countP.go, hA0, hA1, hB0, hpa0, hpa1, hpb]
  refine ⟨hmain, ?_, ?_⟩ <;> rw [hmain] <;> rfl

/-- Concrete transport A for the C2 witness: "not xml" then "still bad". -/
def witnessTransportA : ScriptedTransport :=
  ⟨"A", fun k => if k = 0 then .ok "not xml" else .ok "still bad"⟩

/-- Concrete transport B for the C2 witness: always a valid category tag. -/
def witnessTransportB : ScriptedTransport :=
  ⟨"B", fun _ => .ok "<category>Document</category>"⟩

/-- Concrete sort item for the C2 witness. -/
def witnessSortItem : SortItem :=
  ⟨"/tmp/a.pdf", "a", "pdf", "d"⟩

/-- Witness for C2 at a fully concrete scenario. -/
theorem C2_format_fix_retry_order_witness :
    countCalls (LLMEngine_sort [witnessTransportA, witnessTransportB] none
      [witnessSortItem]).2 0 = 2 ∧
    countCalls (LLMEngine_sort [witnessTransportA, witnessTransportB] none
      [witnessSortItem]).2 1 = 1 ∧
    (LLMEngine_sort [witnessTransportA, witnessTransportB] none
      [witnessSortItem]).1 =
      .ok ⟨[("/tmp/a.pdf", "Document")], "<category>Document</category>", []⟩ := by
  have h := C2_format_fix_retry_order witnessTransportA witnessTransportB none
    witnessSortItem "not xml" "still bad" "<category>Document</category>"
    ⟨"Missing <category> in sort response.", "not xml"⟩
    ⟨"Missing <category> in sort response.", "still bad"⟩
    ⟨[("/tmp/a.pdf", "Document")], "<category>Document</category>", []⟩
    rfl rfl rfl (by decide) (by decide) (by decide)
  exact ⟨h.2.1, h.2.2, by rw [h.1]; rfl⟩

/-! ### Call-count bounds of the engine loops -/

theorem countCalls_append (xs ys : List Call) (i : Nat) :
    countCalls (xs ++ ys) i = countCalls xs i + countCalls ys i := by
  simp [countCalls, List.countP_append]

theorem countCalls_nil (i : Nat) : countCalls [] i = 0 := rfl

theorem countCalls_cons (c : Call) (xs : List Call) (i : Nat) :
    countCalls (c :: xs) i =
      (if c.tIdx = i then 1 else 0) + countCalls xs i := by
  by_cases h : c.tIdx = i <;>
    simp [countCalls, List.countP_cons, h, Nat.add_comm]

theorem countCalls_eq_zero (Δ : List Call) (i : Nat)
    (h : ∀ c ∈ Δ, c.tIdx ≠ i) : countCalls Δ i = 0 := by
  simp only [countCalls]
  rw [List.countP_eq_zero]
  intro c hc
  simpa using h c hc

theorem genFallbackAux_tail_bound (prompt : String) (rp : Option String) :
    ∀ (rest : List ScriptedTransport) (idx : Nat) (lastExc : Option PyExc)
      (tr : List Call), 1 ≤ idx →
      ∃ Δ, (genFallbackAux prompt rp idx rest lastExc tr).2 = tr ++ Δ ∧
        (∀ i, countCalls Δ i ≤ 1) ∧
        (∀ c ∈ Δ, idx ≤ c.tIdx ∧ c.prompt = prompt) := by
  intro rest
  induction rest with
  | nil =>
    intro idx lastExc tr _
    refine ⟨[], ?_, ?_, ?_⟩
    · cases lastExc <;> simp [genFallbackAux]
    · intro i; simp [countCalls_nil]
    · intro c hc; simp at hc
  | cons t rest ih =>
    intro idx lastExc tr hidx
    obtain ⟨k, rfl⟩ : ∃ k, idx = k + 1 := ⟨idx - 1, by omega⟩
    cases hb : t.behavior (countCalls tr (k + 1)) with
    | ok text =>
      refine ⟨[⟨k + 1, prompt⟩], ?_, ?_, ?_⟩
      · simp [genFallbackAux, callT, hb]
      · intro i; rw [countCalls_cons]; split <;> simp [countCalls_nil]
      · intro c hc
        simp at hc
        subst hc
        exact ⟨le_rfl, rfl⟩
    | raise e =>
      by_cases hre : isRetryableExc e = true
      · obtain ⟨Δ', hΔ', hcount', hmem'⟩ :=
          ih (k + 2) (some e) (tr ++ [⟨k + 1, prompt⟩]) (by omega)
        refine ⟨⟨k + 1, prompt⟩ :: Δ', ?_, ?_, ?_⟩
        · cases rp with
          | none =>
            simp only [genFallbackAux, callT, hb, hre, if_pos]
            rw [hΔ']
            simp
          | some rps =>
            simp only [genFallbackAux, callT, hb, hre, if_pos]
            rw [hΔ']
            simp
        · intro i
          rw [countCalls_cons]
          by_cases hi : k + 1 = i
          · subst hi
            have hz : countCalls Δ' (k + 1) = 0 :=
              countCalls_eq_zero _ _ (fun c hc => by
                have := (hmem' c hc).1
                omega)
            simp [hz]
          · simp only [hi, if_neg, not_false_eq_true]
            have := hcount' i
            omega
        · intro c hc
          rcases List.mem_cons.mp hc with hc | hc
          · subst hc; exact ⟨le_rfl, rfl⟩
          · have := hmem' c hc
            exact ⟨by omega, this.2⟩
      · refine ⟨[⟨k + 1, prompt⟩], ?_, ?_, ?_⟩
        · have hre' : isRetryableExc e = false := by simpa using hre
          simp [genFallbackAux, callT, hb, hre']
        · intro i; rw [countCalls_cons]; split <;> simp [countCalls_nil]
        · intro c hc
          simp at hc
          subst hc
          exact ⟨le_rfl, rfl⟩

theorem genFallback_bound (ts : List ScriptedTransport) (prompt : String)
    (rp : Option String) (tr : List Call) :
    ∃ Δ, (genFallback ts prompt rp tr).2 = tr ++ Δ ∧
      countCalls Δ 0 ≤ 2 ∧ (∀ i, 1 ≤ i → countCalls Δ i ≤ 1) ∧
      (∀ c ∈ Δ, c.tIdx ≠ 0 → c.prompt = prompt) := by
  cases ts with
  | nil =>
    refine ⟨[], ?_, ?_, ?_, ?_⟩
    · cases rp <;> simp [genFallback, genFallbackAux]
    · simp [countCalls_nil]
    · intro i _; simp [countCalls_nil]
    · intro c hc; simp at hc
  | cons t rest =>
    have hzero : ∀ (Δ' : List Call), (∀ c ∈ Δ', 1 ≤ c.tIdx) →
        countCalls Δ' 0 = 0 := fun Δ' h =>
      countCalls_eq_zero _ _ (fun c hc => by have := h c hc; omega)
    cases hb : t.behavior (countCalls tr 0) with
    | ok text =>
      refine ⟨[⟨0, prompt⟩], by simp [genFallback, genFallbackAux, callT, hb], ?_, ?_, ?_⟩
      · rw [countCalls_cons]; simp [countCalls_nil]
      · intro i hi
        rw [countCalls_cons]
        simp only [show (0 : Nat) ≠ i by omega, if_neg, not_false_eq_true]
        simp [countCalls_nil]
      · intro c hc; simp at hc; subst hc; intro h; simp at h
    | raise e =>
      by_cases hre : isRetryableExc e = true
      · cases rp with
        | none =>
          obtain ⟨Δ', hΔ', hcount', hmem'⟩ :=
            genFallbackAux_tail_bound prompt none rest 1 (some e)
              (tr ++ [⟨0, prompt⟩]) le_rfl
          refine ⟨⟨0, prompt⟩ :: Δ', ?_, ?_, ?_, ?_⟩
          · simp [genFallback, genFallbackAux, callT, hb, hre]
            rw [hΔ']
            simp
          · rw [countCalls_cons, hzero Δ' (fun c hc => (hmem' c hc).1)]
            simp
          · intro i hi
            rw [countCalls_cons]
            simp only [show (0 : Nat) ≠ i by omega, if_neg, not_false_eq_true]
            have := hcount' i
            omega
          · intro c hc hne
            rcases List.mem_cons.mp hc with hc | hc
            · subst hc; rfl
            · exact (hmem' c hc).2
        | some rps =>
          by_cases hrps : rps = ""
          · subst hrps
            obtain ⟨Δ', hΔ', hcount', hmem'⟩ :=
              genFallbackAux_tail_bound prompt (some "") rest 1 (some e)
                (tr ++ [⟨0, prompt⟩]) le_rfl
            refine ⟨⟨0, prompt⟩ :: Δ', ?_, ?_, ?_, ?_⟩
            · simp [genFallback, genFallbackAux, callT, hb, hre]
              rw [hΔ']
              simp
            · rw [countCalls_cons, hzero Δ' (fun c hc => (hmem' c hc).1)]
              simp
            · intro i hi
              rw [countCalls_cons]
              simp only [show (0 : Nat) ≠ i by omega, if_neg, not_false_eq_true]
              have := hcount' i
              omega
            · intro c hc hne
              rcases List.mem_cons.mp hc with hc | hc
              · subst hc; rfl
              · exact (hmem' c hc).2
          · cases hb2 : t.behavior (countCalls (tr ++ [⟨0, prompt⟩]) 0) with
            | ok text =>
              refine ⟨[⟨0, prompt⟩, ⟨0, rps⟩], ?_, ?_, ?_, ?_⟩
              · simp [genFallback, genFallbackAux, callT, hb, hre, hrps, hb2]
              · rw [countCalls_cons, countCalls_cons]
                simp [countCalls_nil]
              · intro i hi
                rw [countCalls_cons, countCalls_cons]
                simp only [show (0 : Nat) ≠ i by omega, if_neg, not_false_eq_true]
                simp [countCalls_nil]
              · intro c hc hne
                rcases List.mem_cons.mp hc with hc | hc
                · subst hc; simp at hne
                · simp at hc; subst hc; simp at hne
            | raise e2 =>
              by_cases hre2 : isRetryableExc e2 = true
              · obtain ⟨Δ', hΔ', hcount', hmem'⟩ :=
                  genFallbackAux_tail_bound prompt (some rps) rest 1 (some e2)
                    (tr ++ [⟨0, prompt⟩, ⟨0, rps⟩]) le_rfl
                refine ⟨⟨0, prompt⟩ :: ⟨0, rps⟩ :: Δ', ?_, ?_, ?_, ?_⟩
                · simp [genFallback, genFallbackAux, callT, hb, hre, hrps, hb2, hre2]
                  rw [hΔ']
                  simp
                · rw [countCalls_cons, countCalls_cons,
                    hzero Δ' (fun c hc => (hmem' c hc).1)]
                  simp
                · intro i hi
                  rw [countCalls_cons, countCalls_cons]
                  simp only [show (0 : Nat) ≠ i by omega, if_neg, not_false_eq_true]
                  have := hcount' i
                  omega
                · intro c hc hne
                  rcases List.mem_cons.mp hc with hc | hc
                  · subst hc; simp at hne
                  · rcases List.mem_cons.mp hc with hc | hc
                    · subst hc; simp at hne
                    · exact (hmem' c hc).2
              · refine ⟨[⟨0, prompt⟩, ⟨0, rps⟩], ?_, ?_, ?_, ?_⟩
                · have hre2' : isRetryableExc e2 = false := by simpa using hre2
                  simp [genFallback, genFallbackAux, callT, hb, hre, hrps, hb2, hre2']
                · rw [countCalls_cons, countCalls_cons]
                  simp [countCalls_nil]
                · intro i hi
                  rw [countCalls_cons, countCalls_cons]
                  simp only [show (0 : Nat) ≠ i by omega, if_neg, not_false_eq_true]
                  simp [countCalls_nil]
                · intro c hc hne
                  rcases List.mem_cons.mp hc with hc | hc
                  · subst hc; simp at hne
                  · simp at hc; subst hc; simp at hne
      · refine ⟨[⟨0, prompt⟩], ?_, ?_, ?_, ?_⟩
        · have hre' : isRetryableExc e = false := by simpa using hre
          simp [genFallback, genFallbackAux, callT, hb, hre']
        · rw [countCalls_cons]; simp [countCalls_nil]
        · intro i hi
          rw [countCalls_cons]
          simp only [show (0 : Nat) ≠ i by omega, if_neg, not_false_eq_true]
          simp [countCalls_nil]
        · intro c hc; simp at hc; subst hc; intro h; simp at h

theorem parseWithRetryAux_bound {α : Type} (parser : String → Except PErr α)
    (fixPrompt raw : String) :
    ∀ (rest : List ScriptedTransport) (idx : Nat) (lp : Option PErr)
      (lt : Option PyExc) (lf : Option String) (tr : List Call),
      ∃ Δ, (parseWithRetryAux parser fixPrompt raw idx rest lp lt lf tr).2 =
          tr ++ Δ ∧
        (∀ i, countCalls Δ i ≤ 1) ∧
        (∀ c ∈ Δ, idx ≤ c.tIdx ∧ c.prompt = fixPrompt) := by
  intro rest
  induction rest with
  | nil =>
    intro idx lp lt lf tr
    refine ⟨[], ?_, ?_, ?_⟩
    · cases lp <;> cases lt <;> simp [parseWithRetryAux]
    · intro i; simp [countCalls_nil]
    · intro c hc; simp at hc
  | cons t rest ih =>
    intro idx lp lt lf tr
    cases hb : t.behavior (countCalls tr idx) with
    | raise e =>
      obtain ⟨Δ', hΔ', hcount', hmem'⟩ :=
        ih (idx + 1) lp (some e) lf (tr ++ [⟨idx, fixPrompt⟩])
      refine ⟨⟨idx, fixPrompt⟩ :: Δ', ?_, ?_, ?_⟩
      · simp [parseWithRetryAux, callT, hb]
        rw [hΔ']
        simp
      · intro i
        rw [countCalls_cons]
        by_cases hi : idx = i
        · subst hi
          have hz : countCalls Δ' idx = 0 :=
            countCalls_eq_zero _ _ (fun c hc => by
              have := (hmem' c hc).1; omega)
          simp [hz]
        · simp only [hi, if_neg, not_false_eq_true]
          have := hcount' i
          omega
      · intro c hc
        rcases List.mem_cons.mp hc with hc | hc
        · subst hc; exact ⟨le_rfl, rfl⟩
        · exact ⟨by have := (hmem' c hc).1; omega, (hmem' c hc).2⟩
    | ok fixed =>
      cases hp : parser fixed with
      | ok r =>
        refine ⟨[⟨idx, fixPrompt⟩], ?_, ?_, ?_⟩
        · simp [parseWithRetryAux, callT, hb, hp]
        · intro i; rw [countCalls_cons]; split <;> simp [countCalls_nil]
        · intro c hc; simp at hc; subst hc; exact ⟨le_rfl, rfl⟩
      | error pe =>
        obtain ⟨Δ', hΔ', hcount', hmem'⟩ :=
          ih (idx + 1) (some pe) lt (some fixed) (tr ++ [⟨idx, fixPrompt⟩])
        refine ⟨⟨idx, fixPrompt⟩ :: Δ', ?_, ?_, ?_⟩
        · simp [parseWithRetryAux, callT, hb, hp]
          rw [hΔ']
          simp
        · intro i
          rw [countCalls_cons]
          by_cases hi : idx = i
          · subst hi
            have hz : countCalls Δ' idx = 0 :=
              countCalls_eq_zero _ _ (fun c hc => by
                have := (hmem' c hc).1; omega)
            simp [hz]
          · simp only [hi, if_neg, not_false_eq_true]
            have := hcount' i
            omega
        · intro c hc
          rcases List.mem_cons.mp hc with hc | hc
          · subst hc; exact ⟨le_rfl, rfl⟩
          · exact ⟨by have := (hmem' c hc).1; omega, (hmem' c hc).2⟩

theorem parseWithRetry_bound {α : Type} (ts : List ScriptedTransport)
    (parser : String → Except PErr α) (originalPrompt exampleOutput raw : String)
    (tr : List Call) :
    ∃ Δ, (parseWithRetry ts parser originalPrompt exampleOutput raw tr).2 =
        tr ++ Δ ∧ (∀ i, countCalls Δ i ≤ 1) := by
  unfold parseWithRetry
  cases hp : parser raw with
  | ok r =>
    refine ⟨[], by simp, ?_⟩
    intro i; simp [countCalls_nil]
  | error e =>
    obtain ⟨Δ, hΔ, hcount, _⟩ :=
      parseWithRetryAux_bound parser
        (build_format_fix_prompt originalPrompt exampleOutput) raw ts 0
        none none none tr
    exact ⟨Δ, hΔ, hcount⟩

/-- C3: every engine invocation (generate-with-fallback followed by
parse-with-retry) makes at most 3 `generate` calls on transport 0 and at
most 2 on every later transport; within the generation phase transport 0
receives at most 2 calls (full prompt then minimal prompt), every other
transport at most 1, and only transport 0 ever receives the minimal retry
prompt.  The bound holds for every transport script, so a transport that
raises a guardrail error on every call is covered. -/
theorem C3_bounded_retry_invariant {α : Type} (ts : List ScriptedTransport)
    (prompt : String) (retryPrompt : Option String) (exampleOutput : String)
    (parser : String → Except PErr α) :
    countCalls (engineInvoke ts prompt retryPrompt exampleOutput parser []).2 0 ≤ 3 ∧
    (∀ i, 1 ≤ i →
      countCalls (engineInvoke ts prompt retryPrompt exampleOutput parser []).2 i ≤ 2) ∧
    countCalls (genFallback ts prompt retryPrompt []).2 0 ≤ 2 ∧
    (∀ i, 1 ≤ i → countCalls (genFallback ts prompt retryPrompt []).2 i ≤ 1) ∧
    (∀ c ∈ (genFallback ts prompt retryPrompt []).2,
      c.tIdx ≠ 0 → c.prompt = prompt) := by
  obtain ⟨Δ₁, hΔ₁, hc0, hci, hpr⟩ := genFallback_bound ts prompt retryPrompt []
  have hgen2 : (genFallback ts prompt retryPrompt []).2 = Δ₁ := by
    simpa using hΔ₁
  refine ⟨?_, ?_, by rw [hgen2]; exact hc0, fun i hi => by rw [hgen2]; exact hci i hi,
    fun c hc => by rw [hgen2] at hc; exact hpr c hc⟩
  · rcases hgf : genFallback ts prompt retryPrompt [] with ⟨res, tr1⟩
    have htr1 : tr1 = Δ₁ := by rw [hgf] at hgen2; exact hgen2
    cases res with
    | error e =>
      simp only [engineInvoke, hgf]
      rw [htr1]
      omega
    | ok raw =>
      obtain ⟨Δ₂, hΔ₂, hcount₂⟩ :=
        parseWithRetry_bound ts parser prompt exampleOutput raw tr1
      simp only [engineInvoke, hgf]
      rw [hΔ₂, htr1, countCalls_append]
      have := hcount₂ 0
      omega
  · intro i hi
    rcases hgf : genFallback ts prompt retryPrompt [] with ⟨res, tr1⟩
    have htr1 : tr1 = Δ₁ := by rw [hgf] at hgen2; exact hgen2
    cases res with
    | error e =>
      simp only [engineInvoke, hgf]
      rw [htr1]
      have := hci i hi
      omega
    | ok raw =>
      obtain ⟨Δ₂, hΔ₂, hcount₂⟩ :=
        parseWithRetry_bound ts parser prompt exampleOutput raw tr1
      simp only [engineInvoke, hgf]
      rw [hΔ₂, htr1, countCalls_append]
      have h1 := hci i hi
      have h2 := hcount₂ i
      omega

/-- A transport that raises a guardrail refusal on every call. -/
def guardrailTransport : ScriptedTransport :=
  ⟨"G", fun _ => .raise ⟨"GuardrailViolationError", "guardrail"⟩⟩

/-- Witness for C3: with one always-guardrailing transport, the invocation
bounds hold and the generation phase calls it exactly twice (full prompt,
then minimal prompt). -/
theorem C3_bounded_retry_invariant_witness :
    countCalls (engineInvoke [guardrailTransport] "full prompt"
      (some "minimal prompt") SORT_EXAMPLE_OUTPUT parse_rename_response []).2 0 ≤ 3 ∧
    countCalls (engineInvoke [guardrailTransport] "full prompt"
      (some "minimal prompt") SORT_EXAMPLE_OUTPUT parse_rename_response []).2 1 ≤ 2 ∧
    countCalls (genFallback [guardrailTransport] "full prompt"
      (some "minimal prompt") []).2 0 = 2 := by
  have h := C3_bounded_retry_invariant [guardrailTransport] "full prompt"
    (some "minimal prompt") SORT_EXAMPLE_OUTPUT parse_rename_response
  exact ⟨h.1, h.2.1 1 (by omega), by decide⟩

/-- Classification of a scripted outcome as "retryable raise". -/
def isRetryableOutcome : GenResult → Bool
  | .ok _ => false
  | .raise e => isRetryableExc e

theorem countCalls_cons' (a : Nat) (p : String) (xs : List Call) (i : Nat) :
    countCalls (⟨a, p⟩ :: xs) i = (if a = i then 1 else 0) + countCalls xs i := by
  rw [countCalls_cons]

theorem mem_append_one_lt (tr : List Call) (a : Nat) (p : String) (bound : Nat)
    (h : ∀ c ∈ tr, c.tIdx < bound) (ha : a < bound) :
    ∀ c ∈ tr ++ [⟨a, p⟩], c.tIdx < bound := by
  intro c hc
  rcases List.mem_append.mp hc with hc | hc
  · exact h c hc
  · simp at hc; subst hc; exact ha

theorem mem_append_two_lt (tr : List Call) (a b : Nat) (p q : String)
    (bound : Nat) (h : ∀ c ∈ tr, c.tIdx < bound) (ha : a < bound)
    (hb : b < bound) : ∀ c ∈ tr ++ [⟨a, p⟩, ⟨b, q⟩], c.tIdx < bound := by
  intro c hc
  rcases List.mem_append.mp hc with hc | hc
  · exact h c hc
  · rcases List.mem_cons.mp hc with hc | hc
    · subst hc; exact ha
    · simp at hc; subst hc; exact hb

theorem genFallbackAux_nonretry (prompt : String) (rp : Option String) :
    ∀ (rest : List ScriptedTransport) (idx : Nat) (lastExc : Option PyExc)
      (tr : List Call) (j : Nat) (tj : ScriptedTransport) (e : PyExc),
      rest.get? j = some tj →
      (∀ i, i < j → ∀ t, rest.get? i = some t →
        ∀ k, isRetryableOutcome (t.behavior k) = true) →
      (∀ c ∈ tr, c.tIdx < idx) →
      tj.behavior 0 = .raise e →
      isRetryableExc e = false →
      (genFallbackAux prompt rp idx rest lastExc tr).1 = .error e ∧
      ∃ Δ, (genFallbackAux prompt rp idx rest lastExc tr).2 = tr ++ Δ ∧
        (∀ c ∈ Δ, c.tIdx ≤ idx + j) ∧ countCalls Δ (idx + j) = 1 := by
  intro rest
  induction rest with
  | nil =>
    intro idx lastExc tr j tj e hj
    simp at hj
  | cons t rest ih =>
    intro idx lastExc tr j tj e hj hpre htr hb hee
    have hcnt : countCalls tr idx = 0 :=
      countCalls_eq_zero _ _ (fun c hc => by have := htr c hc; omega)
    cases j with
    | zero =>
      obtain rfl : t = tj := by simpa using hj
      rw [Nat.add_zero]
      constructor
      · simp [genFallbackAux, callT, hcnt, hb, hee]
      · refine ⟨[⟨idx, prompt⟩], ?_, ?_, ?_⟩
        · simp [genFallbackAux, callT, hcnt, hb, hee]
        · intro c hc; simp at hc; subst hc; exact le_rfl
        · rw [countCalls_cons']; simp [countCalls_nil]
    | succ j' =>
      have hj' : rest.get? j' = some tj := by simpa using hj
      have hpre' : ∀ i, i < j' → ∀ t', rest.get? i = some t' →
          ∀ k, isRetryableOutcome (t'.behavior k) = true := by
        intro i hi t' ht' k
        have : (t :: rest).get? (i + 1) = some t' := by simpa using ht'
        exact hpre (i + 1) (by omega) t' this k
      have hhead : ∀ k, isRetryableOutcome (t.behavior k) = true :=
        hpre 0 (by omega) t (by simp)
      obtain ⟨e1, hb1, hre1⟩ : ∃ e1, t.behavior (countCalls tr idx) = .raise e1 ∧
          isRetryableExc e1 = true := by
        cases hbb : t.behavior (countCalls tr idx) with
        | ok s =>
          have := hhead (countCalls tr idx)
          rw [hbb] at this
          simp [isRetryableOutcome] at this
        | raise e1 =>
          have := hhead (countCalls tr idx)
          rw [hbb] at this
          exact ⟨e1, rfl, by simpa [isRetryableOutcome] using this⟩
      rw [hcnt] at hb1
      cases idx with
      | zero =>
        cases rp with
        | none =>
          obtain ⟨hres, Δ', hΔ', hmem', hcnt'⟩ :=
            ih 1 (some e1) (tr ++ [⟨0, prompt⟩]) j' tj e hj' hpre'
              (mem_append_one_lt tr 0 prompt 1 (fun c hc => by have := htr c hc; omega) (by omega)) hb hee
          constructor
          · simp [genFallbackAux, callT, hcnt, hb1, hre1]
            simpa using hres
          · refine ⟨⟨0, prompt⟩ :: Δ', ?_, ?_, ?_⟩
            · simp [genFallbackAux, callT, hcnt, hb1, hre1]
              rw [hΔ']
              simp
            · intro c hc
              rcases List.mem_cons.mp hc with hc | hc
              · subst hc; exact Nat.zero_le _
              · have := hmem' c hc; omega
            · rw [countCalls_cons', if_neg (by omega : ¬(0 = 0 + (j' + 1)))]
              have heq : (0 : Nat) + (j' + 1) = 1 + j' := by omega
              rw [heq]
              omega
        | some rps =>
          by_cases hrps : rps = ""
          · subst hrps
            obtain ⟨hres, Δ', hΔ', hmem', hcnt'⟩ :=
              ih 1 (some e1) (tr ++ [⟨0, prompt⟩]) j' tj e hj' hpre'
                (mem_append_one_lt tr 0 prompt 1 (fun c hc => by have := htr c hc; omega) (by omega)) hb hee
            constructor
            · simp [genFallbackAux, callT, hcnt, hb1, hre1]
              simpa using hres
            · refine ⟨⟨0, prompt⟩ :: Δ', ?_, ?_, ?_⟩
              · simp [genFallbackAux, callT, hcnt, hb1, hre1]
                rw [hΔ']
                simp
              · intro c hc
                rcases List.mem_cons.mp hc with hc | hc
                · subst hc; exact Nat.zero_le _
                · have := hmem' c hc; omega
              · rw [countCalls_cons', if_neg (by omega : ¬(0 = 0 + (j' + 1)))]
                have heq : (0 : Nat) + (j' + 1) = 1 + j' := by omega
                rw [heq]
                omega
          · obtain ⟨e2, hb2, hre2⟩ :
                ∃ e2, t.behavior (countCalls (tr ++ [⟨0, prompt⟩]) 0) = .raise e2 ∧
                  isRetryableExc e2 = true := by
              cases hbb : t.behavior (countCalls (tr ++ [⟨0, prompt⟩]) 0) with
              | ok s =>
                have := hhead (countCalls (tr ++ [⟨0, prompt⟩]) 0)
                rw [hbb] at this
                simp [isRetryableOutcome] at this
              | raise e2 =>
                have := hhead (countCalls (tr ++ [⟨0, prompt⟩]) 0)
                rw [hbb] at this
                exact ⟨e2, rfl, by simpa [isRetryableOutcome] using this⟩
            obtain ⟨hres, Δ', hΔ', hmem', hcnt'⟩ :=
              ih 1 (some e2) (tr ++ [⟨0, prompt⟩, ⟨0, rps⟩]) j' tj e hj' hpre'
                (mem_append_two_lt tr 0 0 prompt rps 1 (fun c hc => by have := htr c hc; omega) (by omega) (by omega))
                hb hee
            constructor
            · simp [genFallbackAux, callT, hcnt, hb1, hre1, hrps, hb2, hre2]
              simpa using hres
            · refine ⟨⟨0, prompt⟩ :: ⟨0, rps⟩ :: Δ', ?_, ?_, ?_⟩
              · simp [genFallbackAux, callT, hcnt, hb1, hre1, hrps, hb2, hre2]
                rw [hΔ']
                simp
              · intro c hc
                rcases List.mem_cons.mp hc with hc | hc
                · subst hc; exact Nat.zero_le _
                · rcases List.mem_cons.mp hc with hc | hc
                  · subst hc; exact Nat.zero_le _
                  · have := hmem' c hc; omega
              · rw [countCalls_cons', countCalls_cons',
                  if_neg (by omega : ¬(0 = 0 + (j' + 1)))]
                have heq : (0 : Nat) + (j' + 1) = 1 + j' := by omega
                rw [heq]
                omega
      | succ k =>
        obtain ⟨hres, Δ', hΔ', hmem', hcnt'⟩ :=
          ih (k + 2) (some e1) (tr ++ [⟨k + 1, prompt⟩]) j' tj e hj' hpre'
            (mem_append_one_lt tr (k + 1) prompt (k + 2) (fun c hc => by have := htr c hc; omega) (by omega)) hb hee
        constructor
        · cases rp with
          | none =>
            simp [genFallbackAux, callT, hcnt, hb1, hre1]
            simpa using hres
          | some rps =>
            simp [genFallbackAux, callT, hcnt, hb1, hre1]
            simpa using hres
        · refine ⟨⟨k + 1, prompt⟩ :: Δ', ?_, ?_, ?_⟩
          · cases rp with
            | none =>
              simp [genFallbackAux, callT, hcnt, hb1, hre1]
              rw [hΔ']
              simp
            | some rps =>
              simp [genFallbackAux, callT, hcnt, hb1, hre1]
              rw [hΔ']
              simp
          · intro c hc
            rcases List.mem_cons.mp hc with hc | hc
            · subst hc; exact Nat.le_add_right _ _
            · have := hmem' c hc; omega
          · rw [countCalls_cons',
              if_neg (by omega : ¬(k + 1 = k + 1 + (j' + 1)))]
            have heq : (k + 1 : Nat) + (j' + 1) = k + 2 + j' := by omega
            rw [heq]
            omega

/-- C4: during the initial generation phase, if the transport the engine
has reached (every earlier transport having raised only retryable,
guardrail-class errors) raises an error that is neither a guardrail nor a
context-window failure, the engine propagates that error immediately: it
returns it, the raising transport was called exactly once, and no
transport after it is ever called. -/
theorem C4_uncategorized_error_propagates
    (ts : List ScriptedTransport) (prompt : String) (rp : Option String)
    (j : Nat) (tj : ScriptedTransport) (e : PyExc)
    (hj : ts.get? j = some tj)
    (hpre : ∀ i, i < j → ∀ t, ts.get? i = some t →
      ∀ k, isRetryableOutcome (t.behavior k) = true)
    (hb : tj.behavior 0 = .raise e)
    (hee : isRetryableExc e = false) :
    (genFallback ts prompt rp []).1 = .error e ∧
    countCalls (genFallback ts prompt rp []).2 j = 1 ∧
    ∀ c ∈ (genFallback ts prompt rp []).2, c.tIdx ≤ j := by
  obtain ⟨hres, Δ, hΔ, hmem, hcnt⟩ :=
    genFallbackAux_nonretry prompt rp ts 0 none [] j tj e hj hpre
      (by intro c hc; simp at hc) hb hee
  have h2 : (genFallback ts prompt rp []).2 = Δ := by
    simpa [genFallback] using hΔ
  refine ⟨hres, ?_, ?_⟩
  · rw [h2]
    simpa using hcnt
  · intro c hc
    rw [h2] at hc
    have := hmem c hc
    omega

/-- A transport raising an uncategorized (non-guardrail) error. -/
def valueErrorTransport : ScriptedTransport :=
  ⟨"V", fun _ => .raise ⟨"ValueError", "transport down"⟩⟩

/-- A transport the engine must never reach in the C4 witness. -/
def unreachedTransport : ScriptedTransport :=
  ⟨"U", fun _ => .ok "<new_name>never</new_name>"⟩

/-- Witness for C4: after a guardrailing transport 0, transport 1's
ValueError propagates at once and transport 2 is never called. -/
theorem C4_uncategorized_error_propagates_witness :
    (genFallback [guardrailTransport, valueErrorTransport, unreachedTransport]
      "p" (some "m") []).1 = .error ⟨"ValueError", "transport down"⟩ ∧
    countCalls (genFallback [guardrailTransport, valueErrorTransport,
      unreachedTransport] "p" (some "m") []).2 1 = 1 ∧
    countCalls (genFallback [guardrailTransport, valueErrorTransport,
      unreachedTransport] "p" (some "m") []).2 2 = 0 := by
  have h := C4_uncategorized_error_propagates
    [guardrailTransport, valueErrorTransport, unreachedTransport]
    "p" (some "m") 1 valueErrorTransport ⟨"ValueError", "transport down"⟩
    rfl
    (by
      intro i hi t ht k
      have hi0 : i = 0 := by omega
      subst hi0
      have ht' : guardrailTransport = t := by simpa using ht
      rw [← ht']
      rfl)
    rfl (by decide)
  exact ⟨h.1, h.2.1,
    countCalls_eq_zero _ 2 (fun c hc => by have := h.2.2 c hc; omega)⟩

/-! ### Sort batching: a later item's failure discards earlier results -/

/-- Transport for the C7 counterexample: a valid category for the first
item, then only unparseable text. -/
def c7TransportA : ScriptedTransport :=
  ⟨"A", fun k => if k = 0 then .ok "<category>Document</category>" else .ok "junk"⟩

/-- Second transport for the C7 counterexample: always unparseable. -/
def c7TransportB : ScriptedTransport :=
  ⟨"B", fun _ => .ok "junk"⟩

/-- First sort item of the C7 scenario. -/
def c7Item1 : SortItem := ⟨"/1", "1", "e", ""⟩

/-- Second sort item of the C7 scenario. -/
def c7Item2 : SortItem := ⟨"/2", "2", "e", ""⟩

/-- C7 counterexample: item 1's request succeeds with category `Document`,
item 2 then exhausts every transport and retry — and `LLMEngine.sort`
raises, so the caller never receives item 1's category assignment,
contradicting the claim. -/
theorem C7_sort_item_blocked_counterexample :
    (LLMEngine_sort [c7TransportA, c7TransportB] none [c7Item1, c7Item2]).1 =
      .error (.parse ⟨"Missing <category> in sort response.", "junk"⟩) := by
  decide

/-- C7 (amended): `LLMEngine.sort` issues the items as independent
single-item requests sequentially, but a later item's failure raises and
discards the earlier assignments; the caller receives item K's category
assignment only when the later items also succeed, in which case the
result map contains item K's entry. -/
theorem C7_sort_sequential_independence
    (ts : List ScriptedTransport) (ctx : Option String) (i1 i2 : SortItem)
    (r1 : SortResult) (tr1 : List Call) (c1 c2 : String)
    (h1 : engineSortOne ts ctx i1 [] = (.ok r1, tr1)) :
    (∀ e tr2, engineSortOne ts ctx i2 tr1 = (.error e, tr2) →
      (LLMEngine_sort ts ctx [i1, i2]).1 = .error e) ∧
    (∀ r2 tr2, engineSortOne ts ctx i2 tr1 = (.ok r2, tr2) →
      r1.assignments = [(i1.path, c1)] → r2.assignments = [(i2.path, c2)] →
      i1.path ≠ i2.path →
      (LLMEngine_sort ts ctx [i1, i2]).1 =
        .ok ⟨[(i1.path, c1), (i2.path, c2)], r2.raw_text,
          updateAssoc
            (updateAssoc [] (r1.reasons.map (fun p => (p.1, normalize_reason p.2))))
            (r2.reasons.map (fun p => (p.1, normalize_reason p.2)))⟩) := by
  constructor
  · intro e tr2 h2
    simp [LLMEngine_sort, engineSortAux, h1, h2]
  · intro r2 tr2 h2 ha1 ha2 hne
    have hupd1 : updateAssoc [] r1.assignments = [(i1.path, c1)] := by
      rw [ha1]; rfl
    have hupd2 : updateAssoc [(i1.path, c1)] r2.assignments =
        [(i1.path, c1), (i2.path, c2)] := by
      rw [ha2]
      have hbeq : (i1.path == i2.path) = false := by
        simp [hne]
      simp [updateAssoc, setAssoc, hbeq]
    simp [LLMEngine_sort, engineSortAux, h1, h2, hupd1, hupd2]

/-- Transport for the C7 witness: both items succeed. -/
def c7okTransport : ScriptedTransport :=
  ⟨"A", fun k =>
    if k = 0 then .ok "<category>Document</category>"
    else .ok "<category>Image</category>"⟩

set_option maxRecDepth 40000 in
/-- Witness for C7's amended theorem: when both items succeed, the result
map still carries item 1's assignment alongside item 2's. -/
theorem C7_sort_sequential_independence_witness :
    (LLMEngine_sort [c7okTransport] none [c7Item1, c7Item2]).1 =
      .ok ⟨[("/1", "Document"), ("/2", "Image")],
        "<category>Image</category>", []⟩ := by
  have h := (C7_sort_sequential_independence [c7okTransport] none c7Item1 c7Item2
    ⟨[("/1", "Document")], "<category>Document</category>", []⟩
    [⟨0, build_sort_prompt ⟨[c7Item1], none⟩⟩] "Document" "Image"
    (by decide)).2
    ⟨[("/2", "Image")], "<category>Image</category>", []⟩
    [⟨0, build_sort_prompt ⟨[c7Item1], none⟩⟩, ⟨0, build_sort_prompt ⟨[c7Item2], none⟩⟩]
    (by decide) (by decide) (by decide) (by decide)
  rw [h]
  rfl

/-! ## `compute_stem_features` (`llm_utils.py`)

The regexes compile to explicit character scans over the ASCII classes
they use.  `round(x, 3)` on a Python float is modelled as exact rational
rounding to 3 decimals with ties to even (binary-float representation
artifacts are out of scope). -/

/-- `[A-Za-z0-9]` (the class of `re.sub(r"[^A-Za-z0-9]", "", stem)`). -/
def isAsciiAlnum (c : Char) : Bool :=
  c.isAlpha || c.isDigit

/-- `[0-9a-fA-F]`. -/
def isHexChar (c : Char) : Bool :=
  c.isDigit || ('a' ≤ c && c ≤ 'f') || ('A' ≤ c && c ≤ 'F')

/-- Split into maximal runs of characters not satisfying `sep`. -/
def splitRuns (sep : Char → Bool) : List Char → List (List Char)
  | [] => []
  | c :: rest =>
    if sep c then splitRuns sep rest
    else
      match splitRuns sep rest with
      | [] => [[c]]
      | w :: ws =>
        match rest with
        | [] => [[c]]
        | r :: _ => if sep r then [c] :: w :: ws else (c :: w) :: ws

/-- `_TOKEN_SPLIT_RE = [-_.\s]+` separator class. -/
def isTokenSep (c : Char) : Bool :=
  c = '-' || c = '_' || c = '.' || pyIsSpace c

/-- Search for a run of at least `n` consecutive characters satisfying `p`
(the `re.search(p-class{n,})` test). -/
def anyRunGeAux (p : Char → Bool) (n : Nat) : List Char → Nat → Bool
  | [], cnt => n ≤ cnt
  | c :: rest, cnt =>
    if p c then anyRunGeAux p n rest (cnt + 1)
    else (n ≤ cnt) || anyRunGeAux p n rest 0

/-- `bool(re.search(class-run of length ≥ n))`. -/
def anyRunGe (p : Char → Bool) (n : Nat) (s : List Char) : Bool :=
  anyRunGeAux p n s 0

/-- `_UUID_RE.match(stem)`: the canonical anchored 8-4-4-4-12 shape with
version nibble `[1-5]` and variant nibble `[89abAB]`. -/
def uuidMatch (s : List Char) : Bool :=
  (s.take 8).length = 8 && (s.take 8).all isHexChar &&
  (match s.drop 8 with
   | '-' :: r =>
     (r.take 4).length = 4 && (r.take 4).all isHexChar &&
     (match r.drop 4 with
      | '-' :: v :: r3 =>
        ('1' ≤ v && v ≤ '5') &&
        (r3.take 3).length = 3 && (r3.take 3).all isHexChar &&
        (match r3.drop 3 with
         | '-' :: w :: r4 =>
           (w = '8' || w = '9' || w = 'a' || w = 'b' || w = 'A' || w = 'B') &&
           (r4.take 3).length = 3 && (r4.take 3).all isHexChar &&
           (match r4.drop 3 with
            | '-' :: r5 => r5.length = 12 && r5.all isHexChar
            | _ => false)
         | _ => false)
      | _ => false)
   | _ => false)

/-- `_HEX_BLOB_RE.search`: `\b[0-9a-fA-F]{8,}\b` matches iff some maximal
run of word characters consists solely of hex digits and has length ≥ 8
(a match inside a word run would violate the word boundaries, and a run
containing a non-hex word character blocks every candidate start). -/
def hexBlobSearch (s : List Char) : Bool :=
  (splitRuns (fun c => !isWordChar c) s).any
    (fun run => run.all isHexChar && 8 ≤ run.length)

/-- The alternation of `_GENERIC_LABEL_RE`. -/
def genericPrefixes : List (List Char) :=
  ["img".data, "dsc".data, "scan".data, "screenshot".data, "document".data,
   "download".data, "file".data, "image".data, "photo".data, "picture".data]

/-- `_GENERIC_LABEL_RE.match(stem)`:
`^(img|dsc|…)[-_ .]*\d+$` case-insensitively.  Maximal munch of the
separator span is equivalent to the regex's backtracking because the
separator class and `\d` are disjoint. -/
def genericLabelMatch (s : List Char) : Bool :=
  let ls := lowerL s
  genericPrefixes.any (fun p =>
    p.isPrefixOf ls &&
    (let rest := (ls.drop p.length).dropWhile
      (fun c => c = '-' || c = '_' || c = ' ' || c = '.')
     !rest.isEmpty && rest.all Char.isDigit))

/-- `round(digits / max(1, alnum_length), 3)` with ties to even, computed
exactly in thousandths (`n / d` rounded half-even, scaled by 1000).
Binary-float representation artifacts of the source's `round` on a float
are out of scope. -/
def roundRatioThousandths (n d : Nat) : Nat :=
  let num := 1000 * n
  let q0 := num / d
  let r := num % d
  if 2 * r < d then q0
  else if d < 2 * r then q0 + 1
  else if q0 % 2 = 0 then q0 else q0 + 1

/-- The feature dict `compute_stem_features` returns, as a structure (the
source's insertion-ordered dict keys become fields); `digit_ratio` holds
the source's 3-decimal-rounded ratio in thousandths. -/
structure FeatureVector where
  has_letter : Bool
  alpha_token_count : Nat
  token_count : Nat
  is_numeric_only : Bool
  long_digit_run : Bool
  digit_ratio : Nat
  uuid_like : Bool
  hex_blob : Bool
  generic_label : Bool
  length : Nat
  alnum_length : Nat
  stem_in_suggested : Bool
deriving DecidableEq, Repr

/-- `compute_stem_features` from `llm_utils.py`. -/
def compute_stem_features (original_stem suggested_name : String) :
    FeatureVector :=
  let stem := pyStripWs original_stem.data
  let alnum := stem.filter isAsciiAlnum
  let alnum_length := alnum.length
  let digits := (alnum.filter Char.isDigit).length
  let letters := (alnum.filter Char.isAlpha).length
  let digit_ratio := roundRatioThousandths digits (max 1 alnum_length)
  let tokens := splitRuns isTokenSep stem
  { has_letter := decide (0 < letters)
    alpha_token_count := (tokens.filter (fun t => t.any Char.isAlpha)).length
    token_count := tokens.length
    is_numeric_only := !stem.isEmpty && stem.all Char.isDigit
    long_digit_run := anyRunGe Char.isDigit 8 stem
    digit_ratio := digit_ratio
    uuid_like := uuidMatch stem
    hex_blob := hexBlobSearch stem
    generic_label := genericLabelMatch stem
    length := stem.length
    alnum_length := alnum_length
    stem_in_suggested :=
      if !stem.isEmpty && suggested_name ≠ "" then
        listIsSubstring (lowerL stem) (lowerL suggested_name.data)
      else false }

/-! ## `LLMEngine.stem_action` and the `KeepRequest` dataclass -/

/-- `KeepRequest` as declared in `llm_prompts.py`: fields `original_stem`,
`suggested_name`, `features` — the dataclass declares **no** `extension`
field. -/
structure KeepRequest where
  original_stem : String
  suggested_name : String
  features : FeatureVector

/-- The field list of the `KeepRequest` dataclass in `llm_prompts.py`. -/
def keepRequestFields : List String :=
  ["original_stem", "suggested_name", "features"]

/-- The dataclass construction written in `LLMEngine.stem_action`:
`KeepRequest(original_stem=…, suggested_name=…, extension=…, features=…)`.
A generated dataclass `__init__` rejects an undeclared keyword with
`TypeError` before any field is assigned. -/
def mkKeepRequestEngineCall (original_stem suggested_name : String)
    (extension : Option String) (features : FeatureVector) :
    Except PyExc KeepRequest :=
  let _ := extension
  if keepRequestFields.contains "extension" then
    .ok ⟨original_stem, suggested_name, features⟩
  else
    .error ⟨"TypeError",
      "KeepRequest.__init__() got an unexpected keyword argument 'extension'"⟩

/-- `LLMEngine.stem_action` from `llm_engine.py`: computes the feature
vector, then constructs the `KeepRequest` with the `extension=` keyword.
Because `keepRequestFields` provably never contains `"extension"`, the
construction raises on every call; the source's subsequent
`build_keep_prompt` and generate/parse invocation are dead on every
execution, so the ok branch below is unreachable. -/
def LLMEngine_stem_action (ts : List ScriptedTransport)
    (original_stem suggested_name : String) (extension : Option String) :
    Except PyExc KeepResult × List Call :=
  let _ := ts
  let features := compute_stem_features original_stem suggested_name
  match mkKeepRequestEngineCall original_stem suggested_name extension features with
  | .error e => (.error e, [])
  | .ok _req => (.error ⟨"Unreachable", "KeepRequest accepted extension"⟩, [])

/-- C9 (code bug): every call to `LLMEngine.stem_action` raises
`TypeError` while constructing the `KeepRequest`, because the engine
passes `extension=` but the dataclass in `llm_prompts.py` declares only
`original_stem`, `suggested_name` and `features`; no transport is ever
called.  The claim's described behaviour (a request carrying the
extension) matches the spec and the repository's own tests
(`test_llm_prompts_shared.py` constructs `KeepRequest` with
`extension=None`), so the dataclass is the slip. -/
theorem C9_stem_action_raises_type_error (ts : List ScriptedTransport)
    (original_stem suggested_name : String) (extension : Option String) :
    LLMEngine_stem_action ts original_stem suggested_name extension =
      (.error ⟨"TypeError",
        "KeepRequest.__init__() got an unexpected keyword argument 'extension'"⟩,
       []) := rfl

/-! ## `_sanitize_prompt_text` and `build_rename_prompt`

`_sanitize_prompt_text` in `llm_utils.py` declares the parameters
`(value, max_token_len)`.  `build_rename_prompt` in `llm_prompts.py`
calls it with the keyword `max_chars`, which CPython rejects with
`TypeError` at call time; the keyword binding is modelled explicitly. -/

/-- `_PROMPT_MAX_TOKEN_LEN` from `llm_utils.py`. -/
def PROMPT_MAX_TOKEN_LEN : Nat := 40

/-- The character class of `_NONPRINTABLE_RE` (`[\x00-\x08\x0b-\x1f\x7f]`). -/
def isNonPrintableChar (c : Char) : Bool :=
  c.val ≤ 8 || (11 ≤ c.val && c.val ≤ 31) || c.val = 127

/-- Exact split on a character, keeping empty pieces (`str.split(sep)`). -/
def splitOnChar (sep : Char) : List Char → List (List Char)
  | [] => [[]]
  | c :: rest =>
    if c = sep then [] :: splitOnChar sep rest
    else
      match splitOnChar sep rest with
      | [] => [[c]]
      | w :: ws => (c :: w) :: ws

/-- `str.splitlines()` after CR normalization: split on `\n`, without a
trailing empty piece (the remaining non-ASCII line boundaries cannot occur
after `_NONPRINTABLE_RE` substitution). -/
def splitLinesPy (s : List Char) : List (List Char) :=
  if s = [] then []
  else
    let ps := splitOnChar '\n' s
    match ps.getLast? with
    | some [] => ps.dropLast
    | _ => ps

/-- The body of `_sanitize_prompt_text` from `llm_utils.py`. -/
def sanitizePromptText (value : Option String) (max_token_len : Nat) : String :=
  match value with
  | none => ""
  | some raw =>
    if raw = "" then ""
    else
      let text1 := (raw.replace "\r\n" "\n").replace "\r" "\n"
      let text2 : String :=
        ⟨text1.data.map (fun c => if isNonPrintableChar c then ' ' else c)⟩
      let text3 := text2.replace "\t" " "
      let step := fun (acc : List String × List String) (rawLine : List Char) =>
        let compact := joinSpace (pySplitWs rawLine)
        if compact = [] then acc
        else
          let tokens := (splitOnChar ' ' compact).filter
            (fun tkn => tkn.length ≤ max_token_len)
          if tokens = [] then acc
          else
            let line : String := ⟨joinSpace tokens⟩
            let key := line.toLower
            if key ∈ acc.2 then acc
            else (acc.1 ++ [line], acc.2 ++ [key])
      String.intercalate "\n" ((splitLinesPy text3.data).foldl step ([], [])).1

/-- `_sanitize_prompt_list` from `llm_utils.py`, at the list-valued
`keywords` key the rename builder feeds it. -/
def sanitizePromptList (value : Option (List String)) : List String :=
  match value with
  | none => []
  | some items =>
    (items.map (fun it => sanitizePromptText (some it) PROMPT_MAX_TOKEN_LEN)).filter
      (fun t => t ≠ "")

/-- Python keyword binding for a call
`_sanitize_prompt_text(value, **{kw: arg})` against the declared
parameters `(value, max_token_len)`: an undeclared keyword raises
`TypeError` before the body runs. -/
def callSanitizePromptTextKw (value : Option String) (kw : String) (arg : Nat) :
    Except PyExc String :=
  if kw = "max_token_len" then .ok (sanitizePromptText value arg)
  else if kw = "value" then
    .error ⟨"TypeError", "_sanitize_prompt_text() got multiple values for argument 'value'"⟩
  else
    .error ⟨"TypeError",
      "_sanitize_prompt_text() got an unexpected keyword argument '" ++ kw ++ "'"⟩

/-- The metadata keys `build_rename_prompt` reads (spec §6); a `none`
field models an absent key, where `metadata.get(k)` returns `None`. -/
structure RenameMetadata where
  title : Option String := none
  keywords : Option (List String) := none
  summary : Option String := none
  description : Option String := none
  caption : Option String := none
  ocr_text : Option String := none
  caption_note : Option String := none
  filetype_hint : Option String := none
  extension : Option String := none

/-- `RenameRequest` dataclass from `llm_prompts.py`. -/
structure RenameRequest where
  metadata : RenameMetadata
  current_name : String
  context : Option String := none

/-- `RENAME_SCHEMA_XML` from `llm_prompts.py`. -/
def RENAME_SCHEMA_XML : String :=
  "<new_name>NAME_WITH_EXTENSION</new_name>\n<reason>short reason (5-12 words)</reason>"

/-- `PROMPT_FILENAME_CHARS` from `llm_utils.py`. -/
def PROMPT_FILENAME_CHARS : Nat := 80

/-- Python `x or y` on optional strings: `None` and `""` are falsy. -/
def pyOrStr (a b : Option String) : Option String :=
  match a with
  | some s => if s ≠ "" then some s else b
  | none => b

/-- `repr` of a list of strings, as an f-string renders `{keywords}`
(quote-escaping corner cases aside). -/
def pyListRepr (xs : List String) : String :=
  "[" ++ String.intercalate ", " (xs.map (fun s => "'" ++ s ++ "'")) ++ "]"

/-- `build_rename_prompt` from `llm_prompts.py`.  After assembling the
static instruction lines, the source runs
`title = _sanitize_prompt_text(req.metadata.get("title"), max_chars=200)`
— but `_sanitize_prompt_text` has no `max_chars` parameter, so every call
raises `TypeError` here; the rest of the body is modelled faithfully but
is unreachable on every execution. -/
def build_rename_prompt (req : RenameRequest) : Except PyExc String :=
  let lines0 : List String :=
    (match req.context with
     | some c => if c ≠ "" then ["Context: " ++ c] else []
     | none => []) ++
    ["Rename mode: create a concise, human-readable filename up to " ++
       toString PROMPT_FILENAME_CHARS ++ " characters.",
     "Goal: the filename should make immediate sense to a person skimming a folder.",
     "Focus on purpose or type (form, invoice, receipt, contract, screenshot topic).",
     "Summarize instead of listing every visible word.",
     "Use 2-6 meaningful tokens; keep names short (1-2 names max).",
     "Avoid phone numbers, emails, or long numeric strings.",
     "Include a date only if clearly present and important (format YYYYMMDD).",
     "Include an ID only if it is a short labeled identifier.",
     "Avoid repeating tokens or echoing noisy original stems.",
     "Separate tokens with underscores or hyphens.",
     "Avoid filler adjectives like vibrant/beautiful.",
     "Return only the tags shown below. Do not include code fences.",
     "Do not wrap tags in any outer container.",
     RENAME_SCHEMA_XML]
  match callSanitizePromptTextKw req.metadata.title "max_chars" 200 with
  | .error e => .error e
  | .ok title =>
    let keywords := sanitizePromptList req.metadata.keywords
    match callSanitizePromptTextKw
        (pyOrStr req.metadata.summary req.metadata.description) "max_chars" 1200 with
    | .error e => .error e
    | .ok description =>
      match callSanitizePromptTextKw req.metadata.caption "max_chars" 800 with
      | .error e => .error e
      | .ok caption =>
        match callSanitizePromptTextKw req.metadata.ocr_text "max_chars" 800 with
        | .error e => .error e
        | .ok ocr_text =>
          let caption_note :=
            sanitizePromptText req.metadata.caption_note PROMPT_MAX_TOKEN_LEN
          let filetype_hint :=
            sanitizePromptText req.metadata.filetype_hint PROMPT_MAX_TOKEN_LEN
          let lines := lines0 ++
            ["current_name: " ++ req.current_name] ++
            (if filetype_hint ≠ "" then ["filetype: " ++ filetype_hint] else []) ++
            (if title ≠ "" then ["title: " ++ title] else []) ++
            (if keywords ≠ [] then ["keywords: " ++ pyListRepr keywords] else []) ++
            (if description ≠ "" then ["description: " ++ description] else []) ++
            (if caption ≠ "" then ["caption: " ++ caption] else []) ++
            (if ocr_text ≠ "" then ["ocr_text: " ++ ocr_text] else []) ++
            (if caption_note ≠ "" then ["caption_note: " ++ caption_note] else []) ++
            ["extension: " ++
              (match req.metadata.extension with | some e => e | none => "None")]
          .ok (String.intercalate "\n" lines)

/-- C8 (code bug): `build_rename_prompt` never returns a prompt — for
every request it raises `TypeError`, because it passes the keyword
`max_chars` to `_sanitize_prompt_text`, whose signature in `llm_utils.py`
is `(value, max_token_len)`.  The claim's totality matches the spec and
the repository's own tests (which call `build_rename_prompt` and assert
on its output), so the mismatched keyword is the slip. -/
theorem C8_build_rename_prompt_raises_type_error (req : RenameRequest) :
    build_rename_prompt req =
      .error ⟨"TypeError",
        "_sanitize_prompt_text() got an unexpected keyword argument 'max_chars'"⟩ :=
  rfl

end RenameNSort
